import Mathlib

/-!
# dir_monitor (kqueue backend): the watch engine `dir_monitor_impl`

A shallow embedding of `include/dir_monitor/kqueue/dir_monitor_impl.hpp`.

* The engine object is the record `dir_monitor_impl` of its data members
  (`entries`, `run_`, `dirs_`, `events_`); member functions are functions on
  that record.  Every member function is taken as one atomic step, and a
  `popfront_event` that would wait on the condition variable is the result
  `none`.  Which mutex each function holds matters only in the section
  "Threads", where the loop of the work thread is split into steps.
* A C++ exception leaving a function is the result `Outcome.threw`, which
  carries the state the function leaves behind.
* The operating system (file metadata, recursive directory iteration, `kevent`)
  is the parameter `OsEnv`; one `OsEnv` is what the operating system answers
  during one call (one `compare`, one pass of the work thread), and successive
  passes may be given different ones.
* File descriptors are plain numbers; closing them (`~unix_handle`) is not
  modelled.
-/

namespace DirMonitor

/-! ## Results of code that may throw -/

/-- The result of running a function that may throw: either it returned, or an
exception left it.  Both carry the state the function left behind. -/
inductive Outcome (σ : Type) where
  | returned (s : σ)
  | threw (s : σ)
  deriving DecidableEq

/-- The state left behind, whichever way the function ended. -/
def Outcome.state {σ : Type} : Outcome σ → σ
  | .returned s => s
  | .threw s => s

/-- Whether the function returned normally. -/
def Outcome.isReturned {σ : Type} : Outcome σ → Bool
  | .returned _ => true
  | .threw _ => false

/-! ## The operating system -/

/-- What `::stat` reports about a path, as far as `boost::filesystem` reads it
in `compare`: device and inode (identity), size, modification time, and whether
the file is a regular file. -/
structure FileStat where
  dev : Nat
  ino : Nat
  size : Nat
  mtime : Nat
  regular : Bool
  deriving DecidableEq

/-- The operating system as the engine sees it at one moment.
* `stat p`: the metadata of `p`, or `none` when `::stat` fails;
* `walk dir`: the paths that the `recursive_directory_iterator` on `dir` yields,
  in iteration order, when the iteration runs to its end; `none` when the scan
  fails, in one of the two ways that `walk_interrupted` tells apart;
* `walk_interrupted dir`, read when `walk dir = none`: `none` when the
  constructor `recursive_directory_iterator(dir, ec)` sets `ec` (the directory
  cannot be opened and nothing is yielded); `some ps` when the iterator is
  opened, yields `ps`, and an increment `++it` then throws;
* `kevent_fails wd`: whether the `kevent` call on handle `wd` reports an error
  (`nEvents < 0 or eventData.flags == EV_ERROR`). -/
structure OsEnv where
  stat : String → Option FileStat
  walk : String → Option (List String)
  walk_interrupted : String → Option (List String)
  kevent_fails : Nat → Bool

/-- Library call `boost::filesystem::equivalent(p1, p2)`: throws (`none`) when neither path
can be stat-ed, is `false` when exactly one can, and otherwise compares device,
inode, size and modification time. -/
def fs_equivalent (w : OsEnv) (p1 p2 : String) : Option Bool :=
  match w.stat p1, w.stat p2 with
  | none, none => none
  | some a, some b =>
      some (a.dev == b.dev && a.ino == b.ino && a.size == b.size && a.mtime == b.mtime)
  | _, _ => some false

/-- Library call `boost::filesystem::last_write_time(p)`: throws (`none`) when `p` cannot be
stat-ed. -/
def fs_last_write_time (w : OsEnv) (p : String) : Option Nat :=
  match w.stat p with
  | some a => some a.mtime
  | none => none

/-- Library call `boost::filesystem::is_regular_file(p)`: `false` for a path that is not
found. -/
def fs_is_regular_file (w : OsEnv) (p : String) : Bool :=
  match w.stat p with
  | some a => a.regular
  | none => false

/-- Library call `boost::filesystem::file_size(p)`: throws (`none`) when `p` cannot be stat-ed
or is not a regular file. -/
def fs_file_size (w : OsEnv) (p : String) : Option Nat :=
  match w.stat p with
  | some a => if a.regular then some a.size else none
  | none => none

/-! ## Paths -/

/-- Library call `path::filename()` for a path without a trailing separator (the paths that
directory iteration yields): the text after the last `/`. -/
def path_filename (p : String) : String :=
  String.mk (p.data.reverse.takeWhile (fun c => c != '/')).reverse

/-- Library call `p / q` of `boost::filesystem::path`: `q` is appended to `p`, with a `/`
between them when `p` is not empty, does not end in one and `q` does not start
with one; an empty `q` leaves `p` as it is. -/
def path_append (p q : String) : String :=
  match q.data with
  | [] => p
  | c :: _ =>
      if c == '/' then p ++ q
      else
        match p.data.getLast? with
        | none => p ++ q
        | some l => if l == '/' then p ++ q else p ++ "/" ++ q

/-! ## Events -/

/-- Modelled from the spec: `dir_monitor_event::event_type` is declared outside
this file; the kinds are those of the spec's Event, and `null` is the kind named
in the work thread's commented-out block. -/
inductive event_type where
  | null
  | added
  | removed
  | modified
  | renamed_old_name
  | renamed_new_name
  deriving DecidableEq

/-- Modelled from the spec: `dir_monitor_event` is declared outside this file; it
is built from a path and a kind as in `dir_monitor_event(path, type)`. -/
structure dir_monitor_event where
  path : String
  type : event_type
  deriving DecidableEq

/-- Modelled from the spec: the default-constructed event `dir_monitor_event ev;`
that `popfront_event` returns next to `operation_aborted`. -/
def dir_monitor_event.empty : dir_monitor_event := ⟨"", event_type.null⟩

/-- The two error codes `popfront_event` stores in `ec`. -/
inductive error_code where
  | success
  | operation_aborted
  deriving DecidableEq

/-! ## Snapshots: `dir_entry_map` -/

/-- A `boost::filesystem::directory_entry`, as far as the engine reads it: its
path (the cached status is never read). -/
structure directory_entry where
  path : String
  deriving DecidableEq

/-- The order of `std::string` keys (`operator<`): lexicographic on the
characters. -/
def string_less_chars : List Char → List Char → Bool
  | _, [] => false
  | [], _ :: _ => true
  | a :: as, b :: bs =>
      if a.toNat < b.toNat then true
      else if b.toNat < a.toNat then false
      else string_less_chars as bs

/-- The comparison `a < b` on `std::string`. -/
def string_less (a b : String) : Bool := string_less_chars a.data b.data

/-- The type `std::map<std::string, directory_entry>`, as the list of its pairs in
iteration order (ascending keys). -/
abbrev dir_entry_map := List (String × directory_entry)

/-- The keys of a snapshot, in iteration order. -/
def map_keys (m : dir_entry_map) : List String := m.map Prod.fst

/-- Map lookup `m.find(k)`: the entry stored under `k`, if any. -/
def map_find : dir_entry_map → String → Option directory_entry
  | [], _ => none
  | (k1, e) :: rest, k => if k1 = k then some e else map_find rest k

/-- Map removal `m.erase(it)` for the iterator that `m.find(k)` returned: the pair with key
`k` is taken out. -/
def map_erase : dir_entry_map → String → dir_entry_map
  | [], _ => []
  | (k1, e) :: rest, k => if k1 = k then rest else (k1, e) :: map_erase rest k

/-- Map assignment `m[k] = e`: the value under `k` is replaced, or the pair is inserted at its
place in key order. -/
def map_assign : dir_entry_map → String → directory_entry → dir_entry_map
  | [], k, e => [(k, e)]
  | (k1, e1) :: rest, k, e =>
      if string_less k k1 then (k, e) :: (k1, e1) :: rest
      else if k1 = k then (k, e) :: rest
      else (k1, e1) :: map_assign rest k e

/-! ## The engine -/

/-- The data members of `dir_monitor_impl`.
* `entries`: `unordered_map<string, dir_entry_map>`, the stored snapshot per
  directory name;
* `run_`;
* `dirs_`: `ptr_unordered_map<string, unix_handle>`, the watched directories with
  their handles, in iteration order;
* `events_`: the deque of events, front first. -/
structure dir_monitor_impl where
  entries : List (String × dir_entry_map)
  run_ : Bool
  dirs_ : List (String × Nat)
  events_ : List dir_monitor_event
  deriving DecidableEq

/-- The engine right after construction: nothing watched, no snapshot, `run_`
true, no event. -/
def dir_monitor_impl.init : dir_monitor_impl :=
  { entries := [], run_ := true, dirs_ := [], events_ := [] }

/-- Lookup in `entries` without inserting. -/
def entries_find : List (String × dir_entry_map) → String → Option dir_entry_map
  | [], _ => none
  | (d1, m) :: rest, d => if d1 = d then some m else entries_find rest d

/-- The value of `entries[dir]`: the stored snapshot, or the empty map that
`operator[]` creates for a name that has none. -/
def snapshot_of (s : dir_monitor_impl) (dir : String) : dir_entry_map :=
  (entries_find s.entries dir).getD []

/-- Writing `m` through the reference `entries[dir]`: the stored map is replaced,
or a new pair is added for a name that had none. -/
def entries_set : List (String × dir_entry_map) → String → dir_entry_map →
    List (String × dir_entry_map)
  | [], d, m => [(d, m)]
  | (d1, m1) :: rest, d, m =>
      if d1 = d then (d, m) :: rest else (d1, m1) :: entries_set rest d m

/-- The engine with `entries[dir]` set to `m`. -/
def set_snapshot (s : dir_monitor_impl) (dir : String) (m : dir_entry_map) :
    dir_monitor_impl :=
  { s with entries := entries_set s.entries dir m }

/-- Whether `dirs_` has the key `dir`. -/
def dirs_contains (ds : List (String × Nat)) (dir : String) : Bool :=
  ds.any (fun p => p.1 == dir)

/-- The call `dirs_.insert(dirname, new unix_handle(wd))`: the pair is added iff the key
is not there yet (on a duplicate the new handle is deleted and the map is left as
it is). -/
def dirs_insert (ds : List (String × Nat)) (dir : String) (wd : Nat) :
    List (String × Nat) :=
  if dirs_contains ds dir then ds else ds ++ [(dir, wd)]

/-- The call `dirs_.erase(dirname)`. -/
def dirs_erase (ds : List (String × Nat)) (dir : String) : List (String × Nat) :=
  ds.filter (fun p => !(p.1 == dir))

/-- Member `pushback_event(ev)`: the event is appended at the back while `run_` is true, dropped
otherwise. -/
def pushback_event (s : dir_monitor_impl) (ev : dir_monitor_event) : dir_monitor_impl :=
  if s.run_ then { s with events_ := s.events_ ++ [ev] } else s

/-- Member `popfront_event(ec)`: `none` when the call waits on the condition variable
(`run_` true and no event); otherwise the returned event, the value stored in `ec`
and the new state. -/
def popfront_event (s : dir_monitor_impl) :
    Option (dir_monitor_event × error_code × dir_monitor_impl) :=
  if s.run_ && s.events_.isEmpty then none
  else
    match s.events_ with
    | ev :: rest => some (ev, error_code.success, { s with events_ := rest })
    | [] => some (dir_monitor_event.empty, error_code.operation_aborted, s)

/-- Member `destroy()`: `run_` is set to false (and the waiting poppers are notified). -/
def destroy (s : dir_monitor_impl) : dir_monitor_impl := { s with run_ := false }

/-- Member `stop_work_thread()`: `run_` is set to false. -/
def stop_work_thread (s : dir_monitor_impl) : dir_monitor_impl := { s with run_ := false }

/-- Member `running()`: the value of `run_`. -/
def running (s : dir_monitor_impl) : Bool := s.run_

/-- Member `remove_directory(dirname)`: the name is erased from `dirs_`. -/
def remove_directory (s : dir_monitor_impl) (dirname : String) : dir_monitor_impl :=
  { s with dirs_ := dirs_erase s.dirs_ dirname }

/-- Member `scan(dir, entries)`: throws before it writes anything when the iterator
cannot be opened (`ec` set); otherwise stores every path the iterator yields under
its native string, into the map it was given (the map is not cleared first), and
returns at the end of the iteration, or is left by the exception of an increment
`++it` that throws, with what was stored until then. -/
def scan (w : OsEnv) (dir : String) (entries : dir_entry_map) : Outcome dir_entry_map :=
  match w.walk dir with
  | some ps => Outcome.returned (ps.foldl (fun m p => map_assign m p ⟨p⟩) entries)
  | none =>
      match w.walk_interrupted dir with
      | none => Outcome.threw entries
      | some ps => Outcome.threw (ps.foldl (fun m p => map_assign m p ⟨p⟩) entries)

/-- Member `add_directory(dirname, wd)`: the handle is inserted into `dirs_`, then the
directory is scanned into `entries[dirname]`. -/
def add_directory (w : OsEnv) (s : dir_monitor_impl) (dirname : String) (wd : Nat) :
    Outcome dir_monitor_impl :=
  let s1 : dir_monitor_impl := { s with dirs_ := dirs_insert s.dirs_ dirname wd }
  match scan w dirname (snapshot_of s1 dirname) with
  | Outcome.threw m => Outcome.threw (set_snapshot s1 dirname m)
  | Outcome.returned m => Outcome.returned (set_snapshot s1 dirname m)

/-- The condition of the `if` in `compare` for the entry paths `pn` (new) and
`po` (old), evaluated left to right with short-circuit; `none` when one of the
filesystem calls throws. -/
def entry_changed (w : OsEnv) (pn po : String) : Option Bool :=
  match fs_equivalent w pn po with
  | none => none
  | some false => some true
  | some true =>
      match fs_last_write_time w pn, fs_last_write_time w po with
      | some tn, some told =>
          if tn != told then some true
          else if fs_is_regular_file w pn && fs_is_regular_file w po then
            match fs_file_size w pn, fs_file_size w po with
            | some sn, some so => some (sn != so)
            | _, _ => none
          else some false
      | _, _ => none

/-- The event `compare` builds for entry `e` of directory `dir`:
`dir_monitor_event(path(dir) / e.path().filename(), type)`. -/
def event_for (dir : String) (e : directory_entry) (t : event_type) : dir_monitor_event :=
  ⟨path_append dir (path_filename e.path), t⟩

/-- The first loop of `compare`, over the pairs of `new_entries` still to visit;
`old` is `old_entries` as erased so far. -/
def compare_new (w : OsEnv) (dir : String) :
    List (String × directory_entry) → dir_entry_map → dir_monitor_impl →
    Outcome (dir_entry_map × dir_monitor_impl)
  | [], old, s => Outcome.returned (old, s)
  | (k, en) :: rest, old, s =>
      match map_find old k with
      | some eo =>
          match entry_changed w en.path eo.path with
          | none => Outcome.threw (old, s)
          | some c =>
              compare_new w dir rest (map_erase old k)
                (if c then pushback_event s (event_for dir en event_type.modified) else s)
      | none =>
          compare_new w dir rest old (pushback_event s (event_for dir en event_type.added))

/-- The second loop of `compare`, over what is left of `old_entries`. -/
def compare_old (dir : String) : List (String × directory_entry) → dir_monitor_impl →
    dir_monitor_impl
  | [], s => s
  | (_, eo) :: rest, s =>
      compare_old dir rest (pushback_event s (event_for dir eo event_type.removed))

/-- Member `compare(dir, old_entries, new_entries)`; the result carries `old_entries` as
the call leaves it and the engine. -/
def compare (w : OsEnv) (dir : String) (old_entries new_entries : dir_entry_map)
    (s : dir_monitor_impl) : Outcome (dir_entry_map × dir_monitor_impl) :=
  match compare_new w dir new_entries old_entries s with
  | Outcome.threw r => Outcome.threw r
  | Outcome.returned (old, s1) => Outcome.returned (old, compare_old dir old s1)

/-- The body of the `for` loop of `work_thread` for one pair `(dir, wd)` of
`dirs_`: `kevent`, then scan into a fresh map, compare against `entries[dir]`,
swap. -/
def check_directory (w : OsEnv) (s : dir_monitor_impl) (d : String × Nat) :
    Outcome dir_monitor_impl :=
  if w.kevent_fails d.2 then Outcome.threw s
  else
    match scan w d.1 [] with
    | Outcome.threw _ => Outcome.threw s
    | Outcome.returned new_entries =>
        match compare w d.1 (snapshot_of s d.1) new_entries s with
        | Outcome.threw (old, s1) => Outcome.threw (set_snapshot s1 d.1 old)
        | Outcome.returned (_, s1) => Outcome.returned (set_snapshot s1 d.1 new_entries)

/-- The `for (auto dir : dirs_)` loop over the pairs still to visit. -/
def pass_over (w : OsEnv) : List (String × Nat) → dir_monitor_impl → Outcome dir_monitor_impl
  | [], s => Outcome.returned s
  | d :: rest, s =>
      match check_directory w s d with
      | Outcome.threw s1 => Outcome.threw s1
      | Outcome.returned s1 => pass_over w rest s1

/-- One pass of the work thread: the `for` loop over `dirs_`. -/
def loop_pass (w : OsEnv) (s : dir_monitor_impl) : Outcome dir_monitor_impl :=
  pass_over w s.dirs_ s

/-- Member `work_thread()`, observed for as many passes as operating-system states are
given: a pass is run while `running()` holds. -/
def work_thread : List OsEnv → dir_monitor_impl → Outcome dir_monitor_impl
  | [], s => Outcome.returned s
  | w :: ws, s =>
      if running s then
        match loop_pass w s with
        | Outcome.threw s1 => Outcome.threw s1
        | Outcome.returned s1 => work_thread ws s1
      else Outcome.returned s

/-! ## Sequences of queue calls -/

/-- Pushing the events of `es` one after the other with `pushback_event`. -/
def push_all (s : dir_monitor_impl) (es : List dir_monitor_event) : dir_monitor_impl :=
  es.foldl pushback_event s

/-- The results of `n` calls of `popfront_event` in a row, each as the returned
event with the value stored in `ec`, and the state after them; `none` when one of
the calls waits. -/
def pop_n : Nat → dir_monitor_impl →
    Option (List (dir_monitor_event × error_code) × dir_monitor_impl)
  | 0, s => some ([], s)
  | n + 1, s =>
      match popfront_event s with
      | none => none
      | some (ev, ec, s1) =>
          match pop_n n s1 with
          | none => none
          | some (rs, s2) => some ((ev, ec) :: rs, s2)

/-- A call on the event queue: `pushback_event(ev)` or `popfront_event(ec)`. -/
inductive queue_call where
  | push (ev : dir_monitor_event)
  | pop
  deriving DecidableEq

/-- How many of the calls are `popfront_event`. -/
def count_pops : List queue_call → Nat
  | [] => 0
  | queue_call.push _ :: cs => count_pops cs
  | queue_call.pop :: cs => count_pops cs + 1

/-- Running a sequence of queue calls: the results of its `popfront_event` calls
in order, and the final state; `none` when a `popfront_event` waits. -/
def run_calls : List queue_call → dir_monitor_impl →
    Option (List (dir_monitor_event × error_code) × dir_monitor_impl)
  | [], s => some ([], s)
  | queue_call.push ev :: cs, s => run_calls cs (pushback_event s ev)
  | queue_call.pop :: cs, s =>
      match popfront_event s with
      | none => none
      | some (ev, ec, s1) =>
          match run_calls cs s1 with
          | none => none
          | some (rs, s2) => some ((ev, ec) :: rs, s2)

/-! ## The diff of the specification -/

/-- What the diff of the specification (§4.2, step 1) emits for one pair of
`new`: an `added` event when the key is not in `old`, a `modified` event when it
is and the two entries are judged changed, nothing otherwise. -/
def new_entry_event (w : OsEnv) (dir : String) (old : dir_entry_map)
    (p : String × directory_entry) : Option dir_monitor_event :=
  match map_find old p.1 with
  | none => some (event_for dir p.2 event_type.added)
  | some eo =>
      if entry_changed w p.2.path eo.path = some true then
        some (event_for dir p.2 event_type.modified)
      else none

/-- The pairs of `m` whose key is not a key of `other`, in the order of `m`. -/
def only_in (m other : dir_entry_map) : dir_entry_map :=
  m.filter (fun p => decide (p.1 ∉ map_keys other))

/-- The diff of the specification (§4.2): the events for the pairs of `new` in
the order of `new`, then a `removed` event for every pair of `old` whose key is
not in `new`, in the order of `old`. -/
def diff_spec (w : OsEnv) (dir : String) (old new : dir_entry_map) :
    List dir_monitor_event :=
  new.filterMap (new_entry_event w dir old) ++
    (only_in old new).map (fun p => event_for dir p.2 event_type.removed)

/-! ## Concrete operating-system states and snapshots -/

/-- Lookup in a table of named values. -/
def table_find {α : Type} : List (String × α) → String → Option α
  | [], _ => none
  | (k1, v) :: rest, k => if k1 = k then some v else table_find rest k

/-- The operating-system state given by a table of file metadata and a table of
directory listings; every path outside the tables fails (a directory outside the
table cannot be opened), no iteration is interrupted, and `kevent` never reports
an error. -/
def os_of (files : List (String × FileStat)) (listings : List (String × List String)) :
    OsEnv :=
  { stat := table_find files, walk := table_find listings,
    walk_interrupted := fun _ => none, kevent_fails := fun _ => false }

/-- The directory iterator cannot be opened on `dir` (the constructor sets `ec`):
`dir` is not an existing, accessible directory. -/
def cannot_open (w : OsEnv) (dir : String) : Prop :=
  w.walk dir = none ∧ w.walk_interrupted dir = none

/-- A file name: not empty and without a `/`. -/
def file_name (n : String) : Prop :=
  n.data ≠ [] ∧ ∀ c ∈ n.data, c ≠ '/'

/-- A regular file of the given inode, size and modification time. -/
def regular_file (ino size mtime : Nat) : FileStat :=
  { dev := 1, ino := ino, size := size, mtime := mtime, regular := true }

/-- A directory of the given inode and modification time. -/
def directory_file (ino mtime : Nat) : FileStat :=
  { dev := 1, ino := ino, size := 0, mtime := mtime, regular := false }

/-- The snapshot that `scan` builds from a list of paths: each path stored under
itself. -/
def snapshot_from (paths : List String) : dir_entry_map :=
  paths.foldl (fun m p => map_assign m p ⟨p⟩) []

/-- Directory `/d` holding the files `x` (which cannot be stat-ed: a dangling
symbolic link) and `y`. -/
def os_dangling : OsEnv :=
  os_of [("/d/y", regular_file 8 2 100)] [("/d", ["/d/x", "/d/y"])]

/-- Directory `/d` holding the file `x` of 2 bytes, written at time 100. -/
def os_x_before : OsEnv :=
  os_of [("/d/x", regular_file 7 2 100)] [("/d", ["/d/x"])]

/-- Directory `/d` holding the same file `x`, now of 5 bytes, written at time 200. -/
def os_x_after : OsEnv :=
  os_of [("/d/x", regular_file 7 5 200)] [("/d", ["/d/x"])]

/-- Directory `/d` with the subdirectories `a` and `b`, each holding a file `x`. -/
def os_nested : OsEnv :=
  os_of [("/d/a", directory_file 2 50), ("/d/a/x", regular_file 3 1 60),
         ("/d/b", directory_file 4 50), ("/d/b/x", regular_file 5 1 70)]
    [("/d", ["/d/a", "/d/a/x", "/d/b", "/d/b/x"])]

/-- Directory `/d` holding the files `a` and `b`. -/
def os_a_b : OsEnv :=
  os_of [("/d/a", regular_file 2 1 10), ("/d/b", regular_file 3 1 10)]
    [("/d", ["/d/a", "/d/b"])]

/-- Directory `/d` holding the files `b` (as before) and `c`. -/
def os_b_c : OsEnv :=
  os_of [("/d/b", regular_file 3 1 10), ("/d/c", regular_file 4 1 20)]
    [("/d", ["/d/b", "/d/c"])]

/-- Directory `/d` holding the file `a` only. -/
def os_a : OsEnv :=
  os_of [("/d/a", regular_file 2 1 10)] [("/d", ["/d/a"])]

/-- Directory `/d`, empty. -/
def os_empty_d : OsEnv :=
  os_of [] [("/d", [])]

/-- Directories `/gone` (holding `f`) and `/ok` (empty). -/
def os_two_dirs : OsEnv :=
  os_of [("/gone/f", regular_file 2 1 10)] [("/gone", ["/gone/f"]), ("/ok", [])]

/-- The state after `/gone` has been deleted and the file `new` created in `/ok`. -/
def os_gone_lost : OsEnv :=
  os_of [("/ok/new", regular_file 3 1 20)] [("/ok", ["/ok/new"])]

/-- Directory `/d` holding the file `a` and the subdirectory `sub`, which cannot be
entered: the iteration yields both and the increment after `sub` throws. -/
def os_interrupted : OsEnv :=
  { stat := table_find [("/d/a", regular_file 2 1 10), ("/d/sub", directory_file 3 10)],
    walk := fun _ => none,
    walk_interrupted := table_find [("/d", ["/d/a", "/d/sub"])],
    kevent_fails := fun _ => false }

/-- The engine watching `/gone` and `/ok`, registered in the state `os_two_dirs`. -/
def engine_two_dirs : dir_monitor_impl :=
  (add_directory os_two_dirs (add_directory os_two_dirs dir_monitor_impl.init "/gone" 3).state
    "/ok" 4).state

/-- The engine after `/d` was registered while it held `a`, removed, and
registered again after `a` had been deleted. -/
def engine_readded : Outcome dir_monitor_impl :=
  add_directory os_empty_d
    (remove_directory (add_directory os_a dir_monitor_impl.init "/d" 3).state "/d") "/d" 4

/-! ## Sequences of engine calls -/

/-- A call on the engine: one of the member functions the consumers call, or one
pass of the work thread. -/
inductive engine_call where
  | add_directory (w : OsEnv) (dirname : String) (wd : Nat)
  | remove_directory (dirname : String)
  | destroy
  | stop_work_thread
  | popfront_event
  | pushback_event (ev : dir_monitor_event)
  | loop_pass (w : OsEnv)

/-- The engine after one call, whether the call returned or threw; a
`popfront_event` that waits leaves the engine as it is. -/
def apply_call (s : dir_monitor_impl) : engine_call → dir_monitor_impl
  | engine_call.add_directory w dirname wd => (add_directory w s dirname wd).state
  | engine_call.remove_directory dirname => remove_directory s dirname
  | engine_call.destroy => destroy s
  | engine_call.stop_work_thread => stop_work_thread s
  | engine_call.popfront_event =>
      match popfront_event s with
      | none => s
      | some (_, _, s1) => s1
  | engine_call.pushback_event ev => pushback_event s ev
  | engine_call.loop_pass w => (loop_pass w s).state

/-- The engine after a sequence of calls. -/
def apply_calls (s : dir_monitor_impl) (cs : List engine_call) : dir_monitor_impl :=
  cs.foldl apply_call s

/-- The pairs of `new` whose key is also in `old` and whose entries the condition
of `compare` judges changed. -/
def changed_in_both (w : OsEnv) (old new : dir_entry_map) : dir_entry_map :=
  new.filter (fun p =>
    match map_find old p.1 with
    | some eo => decide (entry_changed w p.2.path eo.path = some true)
    | none => false)

/-! ## Threads

The consumers' threads call `add_directory` and `remove_directory`; both hold
`dirs_mutex_` from their first statement to their last, so a call of either is
one step and two such calls never overlap.  `work_thread` locks no mutex around
its `for (auto dir : dirs_)` loop (the only mutex the work thread takes is
`work_thread_mutex_`, inside `running()`), so entering the loop and each run of
the loop body are steps of their own, and steps of other threads may come
between them. -/

/-- A step of one thread on the engine. -/
inductive thread_step where
  | call_add_directory (w : OsEnv) (dirname : String) (wd : Nat)
  | call_remove_directory (dirname : String)
  | loop_enter
  | loop_body (w : OsEnv)

/-- The engine together with the position of the work thread: `iterating` holds
the pairs of `dirs_` that the `for` loop has still to visit (`none` outside the
loop), and `mutated_while_iterating` records whether `add_directory` or
`remove_directory` has run since the loop was entered. -/
structure threads_state where
  engine : dir_monitor_impl
  iterating : Option (List (String × Nat))
  mutated_while_iterating : Bool
  deriving DecidableEq

/-- One step, or `none` when the step cannot be taken: the loop is entered only
from outside the loop, the body runs only inside it, and nothing is said about a
loop that goes on after `dirs_` was mutated under it (its iterator is no longer
valid) or about a step after an exception. -/
def run_step (t : threads_state) : thread_step → Option threads_state
  | thread_step.call_add_directory w dirname wd =>
      match add_directory w t.engine dirname wd with
      | Outcome.threw _ => none
      | Outcome.returned s1 =>
          some { engine := s1, iterating := t.iterating,
                 mutated_while_iterating :=
                   t.mutated_while_iterating || t.iterating.isSome }
  | thread_step.call_remove_directory dirname =>
      some { engine := remove_directory t.engine dirname, iterating := t.iterating,
             mutated_while_iterating := t.mutated_while_iterating || t.iterating.isSome }
  | thread_step.loop_enter =>
      match t.iterating with
      | some _ => none
      | none =>
          if running t.engine then
            some { engine := t.engine, iterating := some t.engine.dirs_,
                   mutated_while_iterating := false }
          else none
  | thread_step.loop_body w =>
      if t.mutated_while_iterating then none
      else
        match t.iterating with
        | none => none
        | some [] => some { t with iterating := none }
        | some (d :: rest) =>
            match check_directory w t.engine d with
            | Outcome.threw _ => none
            | Outcome.returned s1 =>
                some { engine := s1, iterating := some rest,
                       mutated_while_iterating := false }

/-- A sequence of steps, in the order given. -/
def run_steps : threads_state → List thread_step → Option threads_state
  | t, [] => some t
  | t, st :: rest =>
      match run_step t st with
      | none => none
      | some t1 => run_steps t1 rest

/-- Directory `/d` holding `x` (which cannot be stat-ed), with `z` gone and `y`
new. -/
def os_dangling_y : OsEnv :=
  os_of [("/d/y", regular_file 8 2 100)] [("/d", ["/d/x", "/d/y"])]

/-! # Theorems -/

/-! ## The event queue -/

theorem pushback_event_open (s : dir_monitor_impl) (ev : dir_monitor_event)
    (h : s.run_ = true) :
    pushback_event s ev = { s with events_ := s.events_ ++ [ev] } := by
  simp [pushback_event, h]

theorem pushback_event_closed (s : dir_monitor_impl) (ev : dir_monitor_event)
    (h : s.run_ = false) : pushback_event s ev = s := by
  simp [pushback_event, h]

theorem pushback_event_run (s : dir_monitor_impl) (ev : dir_monitor_event) :
    (pushback_event s ev).run_ = s.run_ := by
  unfold pushback_event; split <;> rfl

theorem pushback_event_dirs (s : dir_monitor_impl) (ev : dir_monitor_event) :
    (pushback_event s ev).dirs_ = s.dirs_ := by
  unfold pushback_event; split <;> rfl

theorem pushback_event_entries (s : dir_monitor_impl) (ev : dir_monitor_event) :
    (pushback_event s ev).entries = s.entries := by
  unfold pushback_event; split <;> rfl

theorem push_all_open (es : List dir_monitor_event) (s : dir_monitor_impl)
    (h : s.run_ = true) :
    push_all s es = { s with events_ := s.events_ ++ es } := by
  induction es generalizing s with
  | nil => simp [push_all]
  | cons e es ih =>
      have h1 : (pushback_event s e).run_ = true := by rw [pushback_event_run]; exact h
      have := ih (pushback_event s e) h1
      simp only [push_all, List.foldl_cons] at this ⊢
      rw [this, pushback_event_open s e h]
      simp

theorem pop_n_open (es : List dir_monitor_event) (s : dir_monitor_impl) :
    pop_n es.length { s with events_ := es } =
      some (es.map (fun e => (e, error_code.success)), { s with events_ := [] }) := by
  induction es with
  | nil => simp [pop_n]
  | cons e es ih =>
      simp [pop_n, popfront_event, ih]

/-- C7. Events pushed with `pushback_event` onto an open, empty queue come back
from the next calls of `popfront_event` in the order they were pushed, each with
the success code, and the queue is empty afterwards. -/
theorem popfront_event_fifo (s : dir_monitor_impl) (es : List dir_monitor_event)
    (hrun : s.run_ = true) (hempty : s.events_ = []) :
    pop_n es.length (push_all s es) =
      some (es.map (fun e => (e, error_code.success)), s) := by
  rw [push_all_open es s hrun, hempty]
  have := pop_n_open es s
  simp only [List.nil_append]
  rw [this]
  cases s
  simp_all

/-- C7, at a concrete queue: three events pushed onto the fresh engine. -/
theorem popfront_event_fifo_witness :
    pop_n 3 (push_all dir_monitor_impl.init
        [⟨"/d/a", event_type.added⟩, ⟨"/d/b", event_type.modified⟩,
         ⟨"/d/a", event_type.removed⟩]) =
      some ([(⟨"/d/a", event_type.added⟩, error_code.success),
             (⟨"/d/b", event_type.modified⟩, error_code.success),
             (⟨"/d/a", event_type.removed⟩, error_code.success)], dir_monitor_impl.init) :=
  popfront_event_fifo dir_monitor_impl.init
    [⟨"/d/a", event_type.added⟩, ⟨"/d/b", event_type.modified⟩,
     ⟨"/d/a", event_type.removed⟩] rfl rfl

theorem run_calls_closed (cs : List queue_call) (s : dir_monitor_impl)
    (h : s.run_ = false) :
    run_calls cs s =
      some ((s.events_.take (count_pops cs)).map (fun e => (e, error_code.success)) ++
              List.replicate (count_pops cs - s.events_.length)
                (dir_monitor_event.empty, error_code.operation_aborted),
            { s with events_ := s.events_.drop (count_pops cs) }) := by
  induction cs generalizing s with
  | nil => simp [run_calls, count_pops]
  | cons c cs ih =>
      cases c with
      | push ev =>
          simp only [run_calls, count_pops]
          rw [pushback_event_closed s ev h]
          exact ih s h
      | pop =>
          obtain ⟨en, r, ds, evs⟩ := s
          simp only at h
          subst h
          cases evs with
          | nil =>
              simp only [run_calls, count_pops, popfront_event]
              simp [ih, List.replicate_succ]
          | cons e rest =>
              simp only [run_calls, count_pops, popfront_event]
              simp [ih]

/-- C8. After `destroy()` on a queue holding `Q`, whatever calls of
`pushback_event` and `popfront_event` follow, no `popfront_event` waits: the
first `|Q|` of them return the events of `Q` in order with the success code, and
every later one returns `operation_aborted`. -/
theorem destroy_drains_then_closed (s : dir_monitor_impl) (cs : List queue_call) :
    run_calls cs (destroy s) =
      some ((s.events_.take (count_pops cs)).map (fun e => (e, error_code.success)) ++
              List.replicate (count_pops cs - s.events_.length)
                (dir_monitor_event.empty, error_code.operation_aborted),
            { s with run_ := false, events_ := s.events_.drop (count_pops cs) }) := by
  have := run_calls_closed cs (destroy s) rfl
  simpa [destroy] using this

/-! ## Snapshots -/

theorem map_find_eq_none_iff (m : dir_entry_map) (k : String) :
    map_find m k = none ↔ k ∉ map_keys m := by
  induction m with
  | nil => simp [map_find, map_keys]
  | cons p rest ih =>
      obtain ⟨k1, e⟩ := p
      by_cases h : k1 = k
      · simp [map_find, map_keys, h]
      · have h2 : ¬ k = k1 := fun h3 => h h3.symm
        simp only [map_keys] at ih
        simp [map_find, map_keys, h, h2, ih]

theorem map_find_erase_ne (m : dir_entry_map) (k k2 : String) (h : k2 ≠ k) :
    map_find (map_erase m k) k2 = map_find m k2 := by
  induction m with
  | nil => simp [map_erase]
  | cons p rest ih =>
      obtain ⟨k1, e⟩ := p
      by_cases h1 : k1 = k
      · subst h1
        simp [map_erase, map_find, Ne.symm h]
      · by_cases h2 : k1 = k2
        · subst h2
          simp [map_erase, map_find, h1]
        · simp [map_erase, map_find, h1, h2, ih]

theorem map_erase_eq_filter (m : dir_entry_map) (k : String)
    (hm : (map_keys m).Nodup) :
    map_erase m k = m.filter (fun p => decide (p.1 ≠ k)) := by
  induction m with
  | nil => simp [map_erase]
  | cons p rest ih =>
      obtain ⟨k1, e⟩ := p
      simp only [map_keys, List.map_cons, List.nodup_cons] at hm
      by_cases h1 : k1 = k
      · subst h1
        have : rest.filter (fun p => decide (p.1 ≠ k1)) = rest := by
          apply List.filter_eq_self.mpr
          intro a ha
          have : a.1 ≠ k1 := by
            intro h2
            apply hm.1
            rw [← h2]
            exact List.mem_map_of_mem Prod.fst ha
          simp [this]
        simp only [map_erase, if_true]
        simpa using this.symm
      · simp [map_erase, h1, ih hm.2]

theorem map_erase_sublist (m : dir_entry_map) (k : String) :
    (map_erase m k).Sublist m := by
  induction m with
  | nil => simp [map_erase]
  | cons p rest ih =>
      obtain ⟨k1, e⟩ := p
      by_cases h1 : k1 = k
      · simp [map_erase, h1]
      · simp [map_erase, h1, ih]

theorem map_erase_nodup (m : dir_entry_map) (k : String) (hm : (map_keys m).Nodup) :
    (map_keys (map_erase m k)).Nodup :=
  List.Nodup.sublist ((map_erase_sublist m k).map Prod.fst) hm

/-! ## `compare` -/

theorem pushback_event_events (s : dir_monitor_impl) (ev : dir_monitor_event) :
    (pushback_event s ev).events_ = s.events_ ++ (if s.run_ then [ev] else []) := by
  unfold pushback_event; split <;> simp_all

theorem compare_old_open (dir : String) (old : List (String × directory_entry))
    (s : dir_monitor_impl) (h : s.run_ = true) :
    compare_old dir old s =
      { s with events_ := s.events_ ++
          old.map (fun p => event_for dir p.2 event_type.removed) } := by
  induction old generalizing s with
  | nil => simp [compare_old]
  | cons p rest ih =>
      obtain ⟨k, e⟩ := p
      simp only [compare_old]
      rw [ih _ (by rw [pushback_event_run]; exact h), pushback_event_open s _ h]
      simp

theorem compare_old_closed (dir : String) (old : List (String × directory_entry))
    (s : dir_monitor_impl) (h : s.run_ = false) : compare_old dir old s = s := by
  induction old generalizing s with
  | nil => simp [compare_old]
  | cons p rest ih =>
      obtain ⟨k, e⟩ := p
      simp only [compare_old]
      rw [pushback_event_closed s _ h]
      exact ih s h

/-- The first loop of `compare`, whether it returns or throws: what is left of
`old` is a sub-sequence of `old`, `run_` is unchanged, and the pushed events are
`added` or `modified` events for a sub-sequence of `new`, in the order of `new`. -/
theorem compare_new_shape (w : OsEnv) (dir : String)
    (new : List (String × directory_entry)) (old : dir_entry_map) (s : dir_monitor_impl) :
    ∃ ns : List ((String × directory_entry) × Bool),
      (ns.map Prod.fst).Sublist new ∧
      (compare_new w dir new old s).state.1.Sublist old ∧
      (compare_new w dir new old s).state.2.run_ = s.run_ ∧
      (compare_new w dir new old s).state.2.events_ =
        s.events_ ++ ns.map (fun x =>
          event_for dir x.1.2 (if x.2 then event_type.modified else event_type.added)) := by
  induction new generalizing old s with
  | nil => exact ⟨[], by simp [compare_new, Outcome.state]⟩
  | cons p rest ih =>
      obtain ⟨k, en⟩ := p
      simp only [compare_new]
      cases hf : map_find old k with
      | none =>
          simp only
          obtain ⟨ns, h1, h2, h3, h4⟩ :=
            ih old (pushback_event s (event_for dir en event_type.added))
          cases hr : s.run_ with
          | false =>
              rw [pushback_event_closed s _ hr] at h2 h3 h4 ⊢
              exact ⟨ns, h1.trans (List.sublist_cons_self _ _), h2, h3.trans hr, h4⟩
          | true =>
              refine ⟨((k, en), false) :: ns, ?_, h2, ?_, ?_⟩
              · simpa using h1
              · rw [h3, pushback_event_run, hr]
              · rw [h4, pushback_event_events, hr]; simp
      | some eo =>
          simp only
          cases hc : entry_changed w en.path eo.path with
          | none => exact ⟨[], by simp [Outcome.state]⟩
          | some c =>
              simp only
              cases c with
              | false =>
                  obtain ⟨ns, h1, h2, h3, h4⟩ := ih (map_erase old k) s
                  refine ⟨ns, h1.trans (List.sublist_cons_self _ _), ?_, ?_, ?_⟩
                  · simpa using h2.trans (map_erase_sublist old k)
                  · simpa using h3
                  · simpa using h4
              | true =>
                  obtain ⟨ns, h1, h2, h3, h4⟩ :=
                    ih (map_erase old k)
                      (pushback_event s (event_for dir en event_type.modified))
                  simp only [if_true]
                  cases hr : s.run_ with
                  | false =>
                      rw [pushback_event_closed s _ hr] at h2 h3 h4 ⊢
                      exact ⟨ns, h1.trans (List.sublist_cons_self _ _),
                        h2.trans (map_erase_sublist old k), h3.trans hr, h4⟩
                  | true =>
                      refine ⟨((k, en), true) :: ns, ?_,
                        h2.trans (map_erase_sublist old k), ?_, ?_⟩
                      · simpa using h1
                      · rw [h3, pushback_event_run, hr]
                      · rw [h4, pushback_event_events, hr]; simp

/-- C4. The events pushed by one call of `compare` are: events of kind `added` or
`modified` for entries of the new snapshot, in the iteration order of the new
snapshot, followed by events of kind `removed` for entries of the old snapshot, in
the iteration order of the old snapshot; no `removed` event comes before an
`added` or `modified` one. -/
theorem compare_event_order (w : OsEnv) (dir : String) (old_entries new_entries : dir_entry_map)
    (s : dir_monitor_impl) :
    ∃ (ns : List ((String × directory_entry) × Bool)) (os : List (String × directory_entry)),
      (ns.map Prod.fst).Sublist new_entries ∧ os.Sublist old_entries ∧
      (compare w dir old_entries new_entries s).state.2.events_ =
        s.events_ ++
          (ns.map (fun x =>
              event_for dir x.1.2 (if x.2 then event_type.modified else event_type.added)) ++
            os.map (fun p => event_for dir p.2 event_type.removed)) := by
  obtain ⟨ns, h1, h2, h3, h4⟩ := compare_new_shape w dir new_entries old_entries s
  unfold compare
  cases hr : compare_new w dir new_entries old_entries s with
  | threw r =>
      rw [hr] at h4
      exact ⟨ns, [], h1, List.nil_sublist _, by simpa [Outcome.state] using h4⟩
  | returned r =>
      obtain ⟨old1, s1⟩ := r
      rw [hr] at h2 h3 h4
      simp only [Outcome.state] at h2 h3 h4 ⊢
      cases hrun : s.run_ with
      | false =>
          rw [hrun] at h3
          rw [compare_old_closed dir old1 s1 h3]
          exact ⟨ns, [], h1, List.nil_sublist _, by simpa using h4⟩
      | true =>
          rw [hrun] at h3
          rw [compare_old_open dir old1 s1 h3]
          exact ⟨ns, old1, h1, h2, by simp [h4]⟩

theorem entry_changed_eq_none_iff (w : OsEnv) (pn po : String) :
    entry_changed w pn po = none ↔ w.stat pn = none ∧ w.stat po = none := by
  unfold entry_changed fs_equivalent fs_last_write_time fs_is_regular_file fs_file_size
  cases hn : w.stat pn with
  | none =>
      cases ho : w.stat po with
      | none => simp
      | some b => simp
  | some a =>
      cases ho : w.stat po with
      | none => simp
      | some b =>
          simp only [reduceCtorEq, false_and, iff_false]
          cases heq : (a.dev == b.dev && a.ino == b.ino && a.size == b.size &&
              a.mtime == b.mtime) with
          | false => simp
          | true =>
              simp only
              by_cases ht : a.mtime = b.mtime
              · cases ha : a.regular <;> cases hb : b.regular <;> simp [ht]
              · simp [ht]

theorem compare_new_returns (w : OsEnv) (dir : String)
    (new : List (String × directory_entry)) (old : dir_entry_map) (s : dir_monitor_impl)
    (hrun : s.run_ = true) (hold : (map_keys old).Nodup) (hnew : (map_keys new).Nodup)
    (hstat : ∀ p ∈ new, ∀ eo, map_find old p.1 = some eo →
      entry_changed w p.2.path eo.path ≠ none) :
    compare_new w dir new old s =
      Outcome.returned (only_in old new,
        { s with events_ := s.events_ ++ new.filterMap (new_entry_event w dir old) }) := by
  induction new generalizing old s with
  | nil => simp [compare_new, only_in, map_keys]
  | cons p rest ih =>
      obtain ⟨k, en⟩ := p
      simp only [map_keys, List.map_cons, List.nodup_cons] at hnew
      have hrest : ∀ p ∈ rest, p.1 ≠ k := by
        intro p hp h
        apply hnew.1
        rw [← h]
        exact List.mem_map_of_mem Prod.fst hp
      simp only [compare_new]
      cases hf : map_find old k with
      | none =>
          have hk : k ∉ map_keys old := (map_find_eq_none_iff old k).mp hf
          simp only
          rw [ih old _ (by rw [pushback_event_run]; exact hrun) hold hnew.2
            (fun p hp eo h => hstat p (List.mem_cons_of_mem _ hp) eo h)]
          rw [pushback_event_open s _ hrun]
          have h1 : only_in old rest = only_in old ((k, en) :: rest) := by
            unfold only_in
            apply List.filter_congr
            intro q hq
            have : q.1 ≠ k := by
              intro h
              apply hk
              rw [← h]
              exact List.mem_map_of_mem Prod.fst hq
            simp [map_keys, this]
          simp [h1, new_entry_event, hf]
      | some eo =>
          simp only
          have hne := hstat (k, en) (List.mem_cons_self _ _) eo hf
          cases hc : entry_changed w en.path eo.path with
          | none => exact absurd hc hne
          | some c =>
              simp only
              have hfm : rest.filterMap (new_entry_event w dir (map_erase old k)) =
                  rest.filterMap (new_entry_event w dir old) := by
                apply List.filterMap_congr
                intro q hq
                simp only [new_entry_event]
                rw [map_find_erase_ne old k q.1 (hrest q hq)]
              have h1 : only_in (map_erase old k) rest = only_in old ((k, en) :: rest) := by
                unfold only_in
                rw [map_erase_eq_filter old k hold, List.filter_filter]
                apply List.filter_congr
                intro q _
                by_cases hq : q.1 = k <;> simp [map_keys, hq]
              have hst : ∀ p ∈ rest, ∀ eo, map_find (map_erase old k) p.1 = some eo →
                  entry_changed w p.2.path eo.path ≠ none := by
                intro p hp eo h
                rw [map_find_erase_ne old k p.1 (hrest p hp)] at h
                exact hstat p (List.mem_cons_of_mem _ hp) eo h
              cases c with
              | false =>
                  simp only [Bool.false_eq_true, if_false]
                  rw [ih (map_erase old k) s hrun (map_erase_nodup old k hold) hnew.2 hst]
                  simp [h1, hfm, new_entry_event, hf, hc]
              | true =>
                  simp only [if_true]
                  rw [ih (map_erase old k) _ (by rw [pushback_event_run]; exact hrun)
                    (map_erase_nodup old k hold) hnew.2 hst]
                  rw [pushback_event_open s _ hrun]
                  simp [h1, hfm, new_entry_event, hf, hc]

/-- When no filesystem call throws, `compare` returns and has pushed the diff of
the specification. -/
theorem compare_eq_diff_spec (w : OsEnv) (dir : String) (old_entries new_entries : dir_entry_map)
    (s : dir_monitor_impl)
    (hrun : s.run_ = true) (hold : (map_keys old_entries).Nodup)
    (hnew : (map_keys new_entries).Nodup)
    (hstat : ∀ p ∈ new_entries, ∀ eo, map_find old_entries p.1 = some eo →
      entry_changed w p.2.path eo.path ≠ none) :
    compare w dir old_entries new_entries s =
      Outcome.returned (only_in old_entries new_entries,
        { s with events_ := s.events_ ++ diff_spec w dir old_entries new_entries }) := by
  unfold compare
  rw [compare_new_returns w dir new_entries old_entries s hrun hold hnew hstat]
  simp only
  rw [compare_old_open dir _ _ (by simpa using hrun)]
  simp [diff_spec]

theorem new_events_added (w : OsEnv) (dir : String) (old new : dir_entry_map) :
    (new.filterMap (new_entry_event w dir old)).filter
        (fun e => decide (e.type = event_type.added)) =
      (only_in new old).map (fun p => event_for dir p.2 event_type.added) := by
  induction new with
  | nil => simp [only_in]
  | cons p rest ih =>
      simp only [only_in] at ih
      cases hf : map_find old p.1 with
      | none =>
          have hk : p.1 ∉ map_keys old := (map_find_eq_none_iff old p.1).mp hf
          simp [List.filterMap_cons, new_entry_event, hf, only_in, hk, event_for]
          simpa [new_entry_event, event_for] using ih
      | some eo =>
          have hk : p.1 ∈ map_keys old := by
            by_contra h
            rw [(map_find_eq_none_iff old p.1).mpr h] at hf
            exact absurd hf (by simp)
          by_cases hc : entry_changed w p.2.path eo.path = some true
          · simp [List.filterMap_cons, new_entry_event, hf, only_in, hk, hc, event_for]
            simpa [new_entry_event, event_for] using ih
          · simp [List.filterMap_cons, new_entry_event, hf, only_in, hk, hc]
            simpa [new_entry_event, event_for] using ih

theorem diff_spec_added (w : OsEnv) (dir : String) (old new : dir_entry_map) :
    (diff_spec w dir old new).filter (fun e => decide (e.type = event_type.added)) =
      (only_in new old).map (fun p => event_for dir p.2 event_type.added) := by
  unfold diff_spec
  rw [List.filter_append]
  have h2 : ((only_in old new).map (fun p => event_for dir p.2 event_type.removed)).filter
      (fun e => decide (e.type = event_type.added)) = [] := by
    rw [List.filter_eq_nil_iff]
    intro e he
    rw [List.mem_map] at he
    obtain ⟨p, _, hp⟩ := he
    subst hp
    simp [event_for]
  rw [h2, List.append_nil, new_events_added]

theorem diff_spec_removed (w : OsEnv) (dir : String) (old new : dir_entry_map) :
    (diff_spec w dir old new).filter (fun e => decide (e.type = event_type.removed)) =
      (only_in old new).map (fun p => event_for dir p.2 event_type.removed) := by
  unfold diff_spec
  rw [List.filter_append]
  have h1 : (new.filterMap (new_entry_event w dir old)).filter
      (fun e => decide (e.type = event_type.removed)) = [] := by
    rw [List.filter_eq_nil_iff]
    intro e he
    rw [List.mem_filterMap] at he
    obtain ⟨p, _, hp⟩ := he
    unfold new_entry_event at hp
    split at hp
    · simp only [Option.some.injEq] at hp
      subst hp
      simp [event_for]
    · split at hp
      · simp only [Option.some.injEq] at hp
        subst hp
        simp [event_for]
      · exact absurd hp (by simp)
  have h2 : ((only_in old new).map (fun p => event_for dir p.2 event_type.removed)).filter
      (fun e => decide (e.type = event_type.removed)) =
      (only_in old new).map (fun p => event_for dir p.2 event_type.removed) := by
    apply List.filter_eq_self.mpr
    intro e he
    rw [List.mem_map] at he
    obtain ⟨p, _, hp⟩ := he
    subst hp
    simp [event_for]
  rw [h1, h2, List.nil_append]

/-! ## Claims about `compare` -/

/-- C1, as amended. With the event queue open, and provided that for every key
present in both snapshots at least one of the two entries can be stat-ed,
`compare` returns and the events it has pushed hold exactly one `added` event for
every key that is in new and not in old, exactly one `removed` event for every
key that is in old and not in new, and no other `added` or `removed` event. -/
theorem compare_added_removed (w : OsEnv) (dir : String)
    (old_entries new_entries : dir_entry_map) (s : dir_monitor_impl)
    (hrun : s.run_ = true) (hold : (map_keys old_entries).Nodup)
    (hnew : (map_keys new_entries).Nodup)
    (hstat : ∀ p ∈ new_entries, ∀ eo, map_find old_entries p.1 = some eo →
      w.stat p.2.path ≠ none ∨ w.stat eo.path ≠ none) :
    ∃ (old1 : dir_entry_map) (s1 : dir_monitor_impl) (pushed : List dir_monitor_event),
      compare w dir old_entries new_entries s = Outcome.returned (old1, s1) ∧
      s1.events_ = s.events_ ++ pushed ∧
      pushed.filter (fun e => decide (e.type = event_type.added)) =
        (only_in new_entries old_entries).map
          (fun p => event_for dir p.2 event_type.added) ∧
      pushed.filter (fun e => decide (e.type = event_type.removed)) =
        (only_in old_entries new_entries).map
          (fun p => event_for dir p.2 event_type.removed) := by
  have hst : ∀ p ∈ new_entries, ∀ eo, map_find old_entries p.1 = some eo →
      entry_changed w p.2.path eo.path ≠ none := by
    intro p hp eo h hc
    rw [entry_changed_eq_none_iff] at hc
    rcases hstat p hp eo h with h1 | h1
    · exact h1 hc.1
    · exact h1 hc.2
  exact ⟨_, _, diff_spec w dir old_entries new_entries,
    compare_eq_diff_spec w dir old_entries new_entries s hrun hold hnew hst, rfl,
    diff_spec_added w dir old_entries new_entries,
    diff_spec_removed w dir old_entries new_entries⟩

/-- C1, as amended, at the snapshots `{a, b}` and `{b, c}` of `/d`: one `added`
event (for `c`) and one `removed` event (for `a`). -/
theorem compare_added_removed_witness :
    ∃ (old1 : dir_entry_map) (s1 : dir_monitor_impl) (pushed : List dir_monitor_event),
      compare os_b_c "/d" (snapshot_from ["/d/a", "/d/b"]) (snapshot_from ["/d/b", "/d/c"])
        dir_monitor_impl.init = Outcome.returned (old1, s1) ∧
      s1.events_ = dir_monitor_impl.init.events_ ++ pushed ∧
      pushed.filter (fun e => decide (e.type = event_type.added)) =
        (only_in (snapshot_from ["/d/b", "/d/c"]) (snapshot_from ["/d/a", "/d/b"])).map
          (fun p => event_for "/d" p.2 event_type.added) ∧
      pushed.filter (fun e => decide (e.type = event_type.removed)) =
        (only_in (snapshot_from ["/d/a", "/d/b"]) (snapshot_from ["/d/b", "/d/c"])).map
          (fun p => event_for "/d" p.2 event_type.removed) :=
  compare_added_removed os_b_c "/d" (snapshot_from ["/d/a", "/d/b"])
    (snapshot_from ["/d/b", "/d/c"]) dir_monitor_impl.init rfl (by decide) (by decide)
    (by
      intro p hp eo h
      have hp2 : p = ("/d/b", ⟨"/d/b"⟩) ∨ p = ("/d/c", ⟨"/d/c"⟩) := by
        have : snapshot_from ["/d/b", "/d/c"] =
            [("/d/b", ⟨"/d/b"⟩), ("/d/c", ⟨"/d/c"⟩)] := by decide
        rw [this] at hp
        simpa using hp
      rcases hp2 with rfl | rfl
      · left; decide
      · left; decide)

/-- C1, as stated, fails: with the queue open, old snapshot `{x}` and new snapshot
`{x, y}` of `/d`, where `x` cannot be stat-ed when `compare` runs, `compare` throws
at `x` and pushes nothing, although the key of `y` is in new and not in old. -/
theorem compare_added_removed_counterexample :
    dir_monitor_impl.init.run_ = true ∧
    "/d/y" ∈ map_keys (snapshot_from ["/d/x", "/d/y"]) ∧
    "/d/y" ∉ map_keys (snapshot_from ["/d/x"]) ∧
    compare os_dangling "/d" (snapshot_from ["/d/x"]) (snapshot_from ["/d/x", "/d/y"])
        dir_monitor_impl.init =
      Outcome.threw (snapshot_from ["/d/x"], dir_monitor_impl.init) ∧
    dir_monitor_impl.init.events_ = [] := by
  decide

/-- C2, at the failing input: `/d` is registered while `x` has 2 bytes and was
written at time 100; the first pass finds it so; before the second pass `x` grows
to 5 bytes and is written at time 200. The two passes push no event at all. -/
theorem work_thread_misses_modification :
    work_thread [os_x_before, os_x_after]
        (add_directory os_x_before dir_monitor_impl.init "/d" 3).state =
      Outcome.returned
        { entries := [("/d", [("/d/x", ⟨"/d/x"⟩)])], run_ := true, dirs_ := [("/d", 3)],
          events_ := [] } := by
  decide

/-- C3, at the failing input: the subdirectories `a` and `b` of `/d` were in the
old snapshot, the new one also has a file `x` in each; `compare` pushes two
`added` events whose path is `/d/x`, which is the key of neither. -/
theorem compare_event_path_loses_subdirectory :
    (compare os_nested "/d" (snapshot_from ["/d/a", "/d/b"])
        (snapshot_from ["/d/a", "/d/a/x", "/d/b", "/d/b/x"])
        dir_monitor_impl.init).state.2.events_ =
      [⟨"/d/x", event_type.added⟩, ⟨"/d/x", event_type.added⟩] ∧
    only_in (snapshot_from ["/d/a", "/d/a/x", "/d/b", "/d/b/x"])
        (snapshot_from ["/d/a", "/d/b"]) =
      [("/d/a/x", ⟨"/d/a/x"⟩), ("/d/b/x", ⟨"/d/b/x"⟩)] := by
  decide

/-! ## Claims about registration and the loop pass -/

/-- C5, as stated, fails: after `/d` holding `a` and `b` is registered, the pass
that finds `a` gone and `c` new pushes `added c` first and `removed a` second, not
`[removed a, added c]`. -/
theorem pass_removed_then_added_counterexample :
    add_directory os_a_b dir_monitor_impl.init "/d" 3 =
      Outcome.returned
        { entries := [("/d", [("/d/a", ⟨"/d/a"⟩), ("/d/b", ⟨"/d/b"⟩)])], run_ := true,
          dirs_ := [("/d", 3)], events_ := [] } ∧
    (loop_pass os_b_c (add_directory os_a_b dir_monitor_impl.init "/d" 3).state).state.events_ =
      [⟨"/d/c", event_type.added⟩, ⟨"/d/a", event_type.removed⟩] ∧
    (loop_pass os_b_c (add_directory os_a_b dir_monitor_impl.init "/d" 3).state).state.events_ ≠
      [⟨"/d/a", event_type.removed⟩, ⟨"/d/c", event_type.added⟩] := by
  decide

/-- C6, at the failing input: `/d` is registered while it holds `a`, removed, and
registered again after `a` was deleted. The second `add_directory` returns, yet
the stored snapshot still has the key of `a`, which the scan did not find, and the
first pass over the unchanged directory pushes `removed a`. -/
theorem add_directory_keeps_stale_snapshot :
    engine_readded.isReturned = true ∧
    scan os_empty_d "/d" [] = Outcome.returned [] ∧
    snapshot_of engine_readded.state "/d" = [("/d/a", ⟨"/d/a"⟩)] ∧
    (loop_pass os_empty_d engine_readded.state).state.events_ =
      [⟨"/d/a", event_type.removed⟩] := by
  decide

/-- C9, as stated, fails: `/gone` (snapshot `{f}`) and `/ok` are watched; in the
pass `/gone` cannot be scanned and `/ok` has a new file. The pass ends by the
exception and leaves the engine as it was: no `removed` event for `f`, `/gone`
still registered, `/ok` not checked. -/
theorem loop_pass_scan_failure_counterexample :
    engine_two_dirs.dirs_ = [("/gone", 3), ("/ok", 4)] ∧
    snapshot_of engine_two_dirs "/gone" = [("/gone/f", ⟨"/gone/f"⟩)] ∧
    os_gone_lost.walk "/gone" = none ∧
    loop_pass os_gone_lost engine_two_dirs = Outcome.threw engine_two_dirs ∧
    engine_two_dirs.events_ = [] := by
  decide

/-- C10, as stated, fails: `add_directory` on the fresh engine with a path that is
not a directory (the iterator cannot be opened) throws, and the path is in `dirs_`
afterwards. -/
theorem add_directory_failure_counterexample :
    os_a.walk "/nodir" = none ∧
    os_a.walk_interrupted "/nodir" = none ∧
    dir_monitor_impl.init.dirs_ = [] ∧
    add_directory os_a dir_monitor_impl.init "/nodir" 3 =
      Outcome.threw
        { entries := [("/nodir", [])], run_ := true, dirs_ := [("/nodir", 3)],
          events_ := [] } := by
  decide

/-! ## The registry and the stored snapshots -/

theorem entries_find_set_self (es : List (String × dir_entry_map)) (d : String)
    (m : dir_entry_map) : entries_find (entries_set es d m) d = some m := by
  induction es with
  | nil => simp [entries_set, entries_find]
  | cons p rest ih =>
      obtain ⟨d1, m1⟩ := p
      by_cases h : d1 = d
      · simp [entries_set, entries_find, h]
      · simp [entries_set, entries_find, h, ih]

theorem entries_find_set_ne (es : List (String × dir_entry_map)) (d d2 : String)
    (m : dir_entry_map) (h : d2 ≠ d) :
    entries_find (entries_set es d m) d2 = entries_find es d2 := by
  induction es with
  | nil => simp [entries_set, entries_find, Ne.symm h]
  | cons p rest ih =>
      obtain ⟨d1, m1⟩ := p
      by_cases h1 : d1 = d
      · subst h1
        simp [entries_set, entries_find, Ne.symm h]
      · by_cases h2 : d1 = d2
        · subst h2
          simp [entries_set, entries_find, h1]
        · simp [entries_set, entries_find, h1, h2, ih]

theorem snapshot_of_set_snapshot_self (s : dir_monitor_impl) (d : String) (m : dir_entry_map) :
    snapshot_of (set_snapshot s d m) d = m := by
  simp [snapshot_of, set_snapshot, entries_find_set_self]

theorem snapshot_of_set_snapshot_ne (s : dir_monitor_impl) (d d2 : String) (m : dir_entry_map)
    (h : d2 ≠ d) : snapshot_of (set_snapshot s d m) d2 = snapshot_of s d2 := by
  simp [snapshot_of, set_snapshot, entries_find_set_ne _ _ _ _ h]

theorem snapshot_of_set_snapshot_same (s : dir_monitor_impl) (d d2 : String) :
    snapshot_of (set_snapshot s d (snapshot_of s d)) d2 = snapshot_of s d2 := by
  by_cases h : d2 = d
  · subst h
    exact snapshot_of_set_snapshot_self s d2 _
  · exact snapshot_of_set_snapshot_ne s d d2 _ h

theorem mem_dirs_insert (ds : List (String × Nat)) (dir : String) (wd : Nat)
    (p : String × Nat) (hp : p ∈ ds) : p ∈ dirs_insert ds dir wd := by
  unfold dirs_insert
  split
  · exact hp
  · exact List.mem_append_left _ hp

/-- C10, as amended. For a path that is not an existing, accessible directory
(the directory iterator cannot be opened), `add_directory` fails (the exception of
`scan` leaves it), and the event queue, `run_` and every stored snapshot are as
before the call; every directory watched before the call is still watched with
its handle. The set `dirs_` is the one after the insertion of `path`. -/
theorem add_directory_failure (w : OsEnv) (s : dir_monitor_impl) (path : String) (wd : Nat)
    (hopen : cannot_open w path) :
    ∃ s1, add_directory w s path wd = Outcome.threw s1 ∧
      s1.events_ = s.events_ ∧ s1.run_ = s.run_ ∧
      (∀ d, snapshot_of s1 d = snapshot_of s d) ∧
      (∀ p ∈ s.dirs_, p ∈ s1.dirs_) ∧
      s1.dirs_ = dirs_insert s.dirs_ path wd := by
  refine ⟨set_snapshot { s with dirs_ := dirs_insert s.dirs_ path wd } path
    (snapshot_of s path), ?_, rfl, rfl, ?_, ?_, rfl⟩
  · simp [add_directory, scan, hopen.1, hopen.2, snapshot_of]
  · intro d
    exact snapshot_of_set_snapshot_same { s with dirs_ := dirs_insert s.dirs_ path wd } path d
  · intro p hp
    exact mem_dirs_insert s.dirs_ path wd p hp

/-- C10, as amended, at the engine watching `/gone` and `/ok` and the path
`/nodir`. -/
theorem add_directory_failure_witness :
    ∃ s1, add_directory os_a engine_two_dirs "/nodir" 5 = Outcome.threw s1 ∧
      s1.events_ = engine_two_dirs.events_ ∧ s1.run_ = engine_two_dirs.run_ ∧
      (∀ d, snapshot_of s1 d = snapshot_of engine_two_dirs d) ∧
      (∀ p ∈ engine_two_dirs.dirs_, p ∈ s1.dirs_) ∧
      s1.dirs_ = dirs_insert engine_two_dirs.dirs_ "/nodir" 5 :=
  add_directory_failure os_a engine_two_dirs "/nodir" 5 ⟨by decide, by decide⟩

/-- A scan that an increment interrupts leaves what it had stored: `add_directory`
on `/d`, where the iteration yields `a` and `sub` and then throws, fails with both
in the stored snapshot of `/d`. -/
theorem add_directory_interrupted_scan :
    add_directory os_interrupted dir_monitor_impl.init "/d" 3 =
      Outcome.threw
        { entries := [("/d", [("/d/a", ⟨"/d/a"⟩), ("/d/sub", ⟨"/d/sub"⟩)])], run_ := true,
          dirs_ := [("/d", 3)], events_ := [] } := by
  decide

/-! ## The loop pass -/

theorem compare_new_frame (w : OsEnv) (dir : String)
    (new : List (String × directory_entry)) (old : dir_entry_map) (s : dir_monitor_impl) :
    (compare_new w dir new old s).state.2.dirs_ = s.dirs_ ∧
    (compare_new w dir new old s).state.2.entries = s.entries := by
  induction new generalizing old s with
  | nil => simp [compare_new, Outcome.state]
  | cons p rest ih =>
      obtain ⟨k, en⟩ := p
      simp only [compare_new]
      cases hf : map_find old k with
      | none =>
          simp only
          have := ih old (pushback_event s (event_for dir en event_type.added))
          rw [pushback_event_dirs, pushback_event_entries] at this
          exact this
      | some eo =>
          simp only
          cases hc : entry_changed w en.path eo.path with
          | none => simp [Outcome.state]
          | some c =>
              cases c with
              | false => simpa using ih (map_erase old k) s
              | true =>
                  have := ih (map_erase old k)
                    (pushback_event s (event_for dir en event_type.modified))
                  rw [pushback_event_dirs, pushback_event_entries] at this
                  simpa using this

theorem compare_old_frame (dir : String) (old : List (String × directory_entry))
    (s : dir_monitor_impl) :
    (compare_old dir old s).dirs_ = s.dirs_ ∧ (compare_old dir old s).entries = s.entries := by
  induction old generalizing s with
  | nil => simp [compare_old]
  | cons p rest ih =>
      obtain ⟨k, e⟩ := p
      simp only [compare_old]
      have := ih (pushback_event s (event_for dir e event_type.removed))
      rw [pushback_event_dirs, pushback_event_entries] at this
      exact this

theorem compare_frame (w : OsEnv) (dir : String) (old new : dir_entry_map)
    (s : dir_monitor_impl) :
    (compare w dir old new s).state.2.dirs_ = s.dirs_ ∧
    (compare w dir old new s).state.2.entries = s.entries := by
  have h := compare_new_frame w dir new old s
  unfold compare
  cases hr : compare_new w dir new old s with
  | threw r => rw [hr] at h; simpa [Outcome.state] using h
  | returned r =>
      obtain ⟨old1, s1⟩ := r
      rw [hr] at h
      simp only [Outcome.state] at h ⊢
      have h2 := compare_old_frame dir old1 s1
      exact ⟨h2.1.trans h.1, h2.2.trans h.2⟩

theorem check_directory_dirs (w : OsEnv) (s : dir_monitor_impl) (d : String × Nat) :
    (check_directory w s d).state.dirs_ = s.dirs_ := by
  unfold check_directory
  split
  · rfl
  · split
    · rfl
    · rename_i new_entries _
      have h := (compare_frame w d.1 (snapshot_of s d.1) new_entries s).1
      split
      · rename_i old s1 heq
        rw [heq] at h
        simpa [Outcome.state, set_snapshot] using h
      · rename_i old s1 heq
        rw [heq] at h
        simpa [Outcome.state, set_snapshot] using h

theorem pass_over_dirs (w : OsEnv) (ds : List (String × Nat)) (s : dir_monitor_impl) :
    (pass_over w ds s).state.dirs_ = s.dirs_ := by
  induction ds generalizing s with
  | nil => simp [pass_over, Outcome.state]
  | cons d rest ih =>
      have h := check_directory_dirs w s d
      simp only [pass_over]
      cases hr : check_directory w s d with
      | threw s1 => rw [hr] at h; simpa [Outcome.state] using h
      | returned s1 =>
          rw [hr] at h
          simp only [Outcome.state] at h
          simp only
          rw [ih s1, h]

theorem pass_over_append (w : OsEnv) (pre rest : List (String × Nat))
    (s s1 : dir_monitor_impl) (hpre : pass_over w pre s = Outcome.returned s1) :
    pass_over w (pre ++ rest) s = pass_over w rest s1 := by
  induction pre generalizing s with
  | nil =>
      simp only [pass_over, Outcome.returned.injEq] at hpre
      simp [hpre]
  | cons d pre ih =>
      simp only [pass_over, List.cons_append] at hpre ⊢
      cases hr : check_directory w s d with
      | threw s2 => rw [hr] at hpre; exact absurd hpre (by simp)
      | returned s2 =>
          rw [hr] at hpre
          simp only at hpre ⊢
          exact ih s2 hpre

/-- C9, as amended. If the scan of a watched directory `d` fails during a loop
pass, the pass ends there with the exception that `scan` throws: the engine is
left as it was after the directories before `d` were checked, so nothing is pushed
for `d`, `d` stays in `dirs_` with its stored snapshot, and the directories after
`d` are not checked in this pass. -/
theorem loop_pass_scan_failure (w : OsEnv) (s s1 : dir_monitor_impl)
    (before after : List (String × Nat)) (d : String × Nat)
    (hdirs : s.dirs_ = before ++ d :: after)
    (hbefore : pass_over w before s = Outcome.returned s1)
    (hscan : w.walk d.1 = none) :
    loop_pass w s = Outcome.threw s1 ∧ s1.dirs_ = s.dirs_ := by
  constructor
  · unfold loop_pass
    rw [hdirs, pass_over_append w before (d :: after) s s1 hbefore]
    have hc : check_directory w s1 d = Outcome.threw s1 := by
      have hs : ∃ m, scan w d.1 [] = Outcome.threw m := by
        unfold scan
        rw [hscan]
        cases w.walk_interrupted d.1 <;> exact ⟨_, rfl⟩
      obtain ⟨m, hm⟩ := hs
      simp [check_directory, hm]
    simp only [pass_over, hc]
  · have := pass_over_dirs w before s
    rw [hbefore] at this
    simpa [Outcome.state] using this

/-- C9, as amended, at the engine watching `/ok` and `/gone`, in that order, when
`/gone` cannot be scanned and `/ok` has a new file: `/ok` is checked, then the
pass ends at `/gone`. -/
theorem loop_pass_scan_failure_witness :
    loop_pass os_gone_lost { engine_two_dirs with dirs_ := [("/ok", 4), ("/gone", 3)] } =
      Outcome.threw
        { entries := [("/gone", [("/gone/f", ⟨"/gone/f"⟩)]), ("/ok", [("/ok/new", ⟨"/ok/new"⟩)])],
          run_ := true, dirs_ := [("/ok", 4), ("/gone", 3)],
          events_ := [⟨"/ok/new", event_type.added⟩] } ∧
    ({ entries := [("/gone", [("/gone/f", ⟨"/gone/f"⟩)]), ("/ok", [("/ok/new", ⟨"/ok/new"⟩)])],
       run_ := true, dirs_ := [("/ok", 4), ("/gone", 3)],
       events_ := [⟨"/ok/new", event_type.added⟩] } : dir_monitor_impl).dirs_ =
      ({ engine_two_dirs with dirs_ := [("/ok", 4), ("/gone", 3)] } : dir_monitor_impl).dirs_ :=
  loop_pass_scan_failure os_gone_lost
    { engine_two_dirs with dirs_ := [("/ok", 4), ("/gone", 3)] } _
    [("/ok", 4)] [] ("/gone", 3) rfl (by decide) (by decide)

/-! ## Registration followed by a pass -/

theorem entry_changed_self (w : OsEnv) (p : String) (h : w.stat p ≠ none) :
    entry_changed w p p = some false := by
  cases hs : w.stat p with
  | none => exact absurd hs h
  | some a =>
      unfold entry_changed fs_equivalent fs_last_write_time fs_is_regular_file fs_file_size
      simp only [hs]
      cases a.regular <;> simp

theorem perm_pair_cases (l : List String) (a b : String) (h : l.Perm [a, b]) :
    l = [a, b] ∨ l = [b, a] := by
  have hlen := h.length_eq
  match l, hlen with
  | [x, y], _ =>
      have hx : x ∈ [a, b] := h.subset (List.mem_cons_self _ _)
      have hy : y ∈ [a, b] := h.subset (List.mem_cons_of_mem _ (List.mem_cons_self _ _))
      have ha : a ∈ [x, y] := h.symm.subset (List.mem_cons_self _ _)
      have hb : b ∈ [x, y] := h.symm.subset (List.mem_cons_of_mem _ (List.mem_cons_self _ _))
      simp only [List.mem_cons, List.mem_singleton, List.not_mem_nil, or_false] at hx hy ha hb
      rcases hx with rfl | rfl <;> rcases hy with rfl | rfl
      · rcases hb with rfl | rfl <;> simp
      · simp
      · simp
      · rcases ha with rfl | rfl <;> simp

theorem snapshot_from_pair (x y : String) (h : x ≠ y) :
    snapshot_from [x, y] = [(x, ⟨x⟩), (y, ⟨y⟩)] ∨
    snapshot_from [x, y] = [(y, ⟨y⟩), (x, ⟨x⟩)] := by
  by_cases hl : string_less y x = true
  · right
    simp [snapshot_from, map_assign, hl]
  · left
    simp [snapshot_from, map_assign, hl, h]

theorem snapshot_from_perm_pair (l : List String) (x y : String) (h : x ≠ y)
    (hl : l.Perm [x, y]) :
    snapshot_from l = [(x, ⟨x⟩), (y, ⟨y⟩)] ∨ snapshot_from l = [(y, ⟨y⟩), (x, ⟨x⟩)] := by
  rcases perm_pair_cases l x y hl with rfl | rfl
  · exact snapshot_from_pair x y h
  · exact (snapshot_from_pair y x (Ne.symm h)).symm

theorem pass_over_fresh_pair (w1 w2 : OsEnv) (s : dir_monitor_impl)
    (dir a b c : String) (wd : Nat) (l1 l2 : List String)
    (hrun : s.run_ = true) (hdirs : s.dirs_ = []) (hfresh : snapshot_of s dir = [])
    (h1 : w1.walk dir = some l1) (hl1 : l1.Perm [a, b])
    (h2 : w2.walk dir = some l2) (hl2 : l2.Perm [b, c])
    (hab : a ≠ b) (hac : a ≠ c) (hbc : b ≠ c)
    (hb : w2.stat b ≠ none) (hk : w2.kevent_fails wd = false) :
    ∃ s1 s2, add_directory w1 s dir wd = Outcome.returned s1 ∧
      s1.events_ = s.events_ ∧
      loop_pass w2 s1 = Outcome.returned s2 ∧
      s2.events_ = s.events_ ++
        [event_for dir ⟨c⟩ event_type.added, event_for dir ⟨a⟩ event_type.removed] := by
  have hadd : add_directory w1 s dir wd =
      Outcome.returned (set_snapshot { s with dirs_ := [(dir, wd)] } dir (snapshot_from l1)) := by
    have hf : snapshot_of { s with dirs_ := dirs_insert s.dirs_ dir wd } dir = [] := hfresh
    simp only [add_directory, scan, h1, hf]
    simp [hdirs, dirs_insert, dirs_contains, snapshot_from]
  have hbb := entry_changed_self w2 b hb
  have hba := Ne.symm hab
  have hca := Ne.symm hac
  have hcb := Ne.symm hbc
  have key : ∀ s1 : dir_monitor_impl, s1.run_ = true → s1.dirs_ = [(dir, wd)] →
      snapshot_of s1 dir = snapshot_from l1 →
      loop_pass w2 s1 = Outcome.returned
        (set_snapshot { s1 with events_ := s1.events_ ++
            [event_for dir ⟨c⟩ event_type.added, event_for dir ⟨a⟩ event_type.removed] }
          dir (snapshot_from l2)) := by
    intro s1 hr hd hs
    have e2' : List.foldl (fun m p => map_assign m p ⟨p⟩) [] l2 = snapshot_from l2 := rfl
    simp only [loop_pass, hd, pass_over, check_directory, hk, scan, h2, e2', hs]
    rcases snapshot_from_perm_pair l1 a b hab hl1 with e1 | e1 <;>
    rcases snapshot_from_perm_pair l2 b c hbc hl2 with e2 | e2 <;>
    · rw [e1, e2]
      simp [compare, compare_new, compare_old, map_find,
        map_erase, hab, hac, hbc, hba, hca, hcb, hbb, pushback_event, set_snapshot, hr, hd]
  exact ⟨_, _, hadd, rfl,
    key _ hrun rfl (snapshot_of_set_snapshot_self _ dir (snapshot_from l1)), rfl⟩

theorem path_filename_append (dir n : String) (hn : file_name n) :
    path_filename (path_append dir n) = n := by
  obtain ⟨hne, hs⟩ := hn
  have hpos : ∀ c ∈ n.data.reverse, (fun c : Char => c != '/') c = true := by
    intro c hc
    have := hs c (List.mem_reverse.mp hc)
    simpa using this
  have stop : ∀ R : List Char, R.head? = none ∨ R.head? = some '/' →
      List.takeWhile (fun c : Char => c != '/') (n.data.reverse ++ R) = n.data.reverse := by
    intro R hR
    rw [List.takeWhile_append_of_pos hpos]
    cases R with
    | nil => simp
    | cons r rest =>
        have hr : r = '/' := by simpa using hR
        subst hr
        simp [List.takeWhile_cons]
  have fin : ∀ R : List Char, R.head? = none ∨ R.head? = some '/' →
      String.mk (List.takeWhile (fun c : Char => c != '/') (n.data.reverse ++ R)).reverse = n := by
    intro R hR
    rw [stop R hR, List.reverse_reverse]
  unfold path_append
  cases hd : n.data with
  | nil => exact absurd hd hne
  | cons c cs =>
      have hc : c ≠ '/' := hs c (by rw [hd]; exact List.mem_cons_self _ _)
      simp only [beq_iff_eq, hc, if_false]
      cases hl : dir.data.getLast? with
      | none =>
          simp only [path_filename, String.data_append, List.reverse_append]
          exact fin _ (Or.inl (by rw [List.head?_reverse, hl]))
      | some l =>
          by_cases hsl : l = '/'
          · subst hsl
            simp only [beq_self_eq_true, if_true, path_filename, String.data_append,
              List.reverse_append]
            exact fin _ (Or.inr (by rw [List.head?_reverse, hl]))
          · simp only [beq_iff_eq, hsl, if_false, path_filename, String.data_append,
              List.reverse_append]
            exact fin _ (Or.inr (by simp))

theorem event_for_file (dir n : String) (t : event_type) (hn : file_name n) :
    event_for dir ⟨path_append dir n⟩ t = ⟨path_append dir n, t⟩ := by
  simp [event_for, path_filename_append dir n hn]

theorem path_append_injective (dir n1 n2 : String) (h1 : file_name n1) (h2 : file_name n2)
    (hne : n1 ≠ n2) : path_append dir n1 ≠ path_append dir n2 := by
  intro h
  apply hne
  rw [← path_filename_append dir n1 h1, ← path_filename_append dir n2 h2, h]

/-- C5, as amended. On an engine with the event queue open, no watched directory
and no stored snapshot for `dir`: after the directory `dir`, containing exactly
the files `a` and `b`, has been registered with `add_directory` (which returns and
pushes nothing), a following loop pass whose scan finds `a` gone, `b` unchanged
and a new file `c` returns and has pushed exactly the two events `added c`,
`removed a`, in that order, each with the path of its file. -/
theorem pass_added_then_removed (w1 w2 : OsEnv) (s : dir_monitor_impl)
    (dir a b c : String) (wd : Nat) (l1 l2 : List String)
    (hrun : s.run_ = true) (hdirs : s.dirs_ = []) (hfresh : snapshot_of s dir = [])
    (ha : file_name a) (hb : file_name b) (hc : file_name c)
    (hab : a ≠ b) (hac : a ≠ c) (hbc : b ≠ c)
    (h1 : w1.walk dir = some l1)
    (hl1 : l1.Perm [path_append dir a, path_append dir b])
    (h2 : w2.walk dir = some l2)
    (hl2 : l2.Perm [path_append dir b, path_append dir c])
    (hexists : w1.stat (path_append dir b) ≠ none)
    (hunchanged : w2.stat (path_append dir b) = w1.stat (path_append dir b))
    (hk : w2.kevent_fails wd = false) :
    ∃ s1 s2, add_directory w1 s dir wd = Outcome.returned s1 ∧
      s1.events_ = s.events_ ∧
      loop_pass w2 s1 = Outcome.returned s2 ∧
      s2.events_ = s.events_ ++
        [⟨path_append dir c, event_type.added⟩, ⟨path_append dir a, event_type.removed⟩] := by
  have h := pass_over_fresh_pair w1 w2 s dir (path_append dir a) (path_append dir b)
    (path_append dir c) wd l1 l2 hrun hdirs hfresh h1 hl1 h2 hl2
    (path_append_injective dir a b ha hb hab) (path_append_injective dir a c ha hc hac)
    (path_append_injective dir b c hb hc hbc) (by rw [hunchanged]; exact hexists) hk
  rw [event_for_file dir c _ hc, event_for_file dir a _ ha] at h
  exact h

/-- C5, as amended, at the fresh engine and the directory `/d` first holding `a`
and `b`, then `b` (as it was) and `c`. -/
theorem pass_added_then_removed_witness :
    ∃ s1 s2, add_directory os_a_b dir_monitor_impl.init "/d" 3 = Outcome.returned s1 ∧
      s1.events_ = dir_monitor_impl.init.events_ ∧
      loop_pass os_b_c s1 = Outcome.returned s2 ∧
      s2.events_ = dir_monitor_impl.init.events_ ++
        [⟨path_append "/d" "c", event_type.added⟩, ⟨path_append "/d" "a", event_type.removed⟩] :=
  pass_added_then_removed os_a_b os_b_c dir_monitor_impl.init "/d" "a" "b" "c" 3
    ["/d/a", "/d/b"] ["/d/b", "/d/c"] rfl rfl rfl
    ⟨by decide, by decide⟩ ⟨by decide, by decide⟩ ⟨by decide, by decide⟩
    (by decide) (by decide) (by decide)
    rfl (by decide) rfl (by decide) (by decide) (by decide) rfl

/-! ## Removal, registration and the stored snapshot -/

theorem dirs_erase_absent (ds : List (String × Nat)) (dir : String)
    (h : dirs_contains ds dir = false) : dirs_erase ds dir = ds := by
  unfold dirs_erase
  apply List.filter_eq_self.mpr
  intro p hp
  unfold dirs_contains at h
  rw [List.any_eq_false] at h
  have := h p hp
  simpa using this

theorem dirs_erase_twice (ds : List (String × Nat)) (dir : String) :
    dirs_erase (dirs_erase ds dir) dir = dirs_erase ds dir := by
  unfold dirs_erase
  rw [List.filter_filter]
  simp

/-- C11. For a path that is not registered, `remove_directory` (which cannot
fail) leaves the whole engine as it is: `dirs_` with every handle, the stored
snapshots, `run_` and the event queue; and calling it twice is the same as
calling it once. -/
theorem remove_directory_unregistered (s : dir_monitor_impl) (path : String)
    (h : dirs_contains s.dirs_ path = false) :
    remove_directory s path = s ∧
    remove_directory (remove_directory s path) path = remove_directory s path := by
  constructor
  · simp [remove_directory, dirs_erase_absent s.dirs_ path h]
  · simp [remove_directory, dirs_erase_twice]

/-- C11, at the engine watching `/gone` and `/ok` and the path `/never`. -/
theorem remove_directory_unregistered_witness :
    remove_directory engine_two_dirs "/never" = engine_two_dirs ∧
    remove_directory (remove_directory engine_two_dirs "/never") "/never" =
      remove_directory engine_two_dirs "/never" :=
  remove_directory_unregistered engine_two_dirs "/never" (by decide)

theorem compare_new_same (w : OsEnv) (dir : String) (m : dir_entry_map)
    (s : dir_monitor_impl) (hex : ∀ p ∈ m, w.stat p.2.path ≠ none) :
    compare_new w dir m m s = Outcome.returned ([], s) := by
  induction m with
  | nil => simp [compare_new]
  | cons p rest ih =>
      obtain ⟨k, e⟩ := p
      have he : entry_changed w e.path e.path = some false :=
        entry_changed_self w e.path (hex (k, e) (List.mem_cons_self _ _))
      simp only [compare_new, map_find, if_true, he, map_erase]
      simpa using ih (fun p hp => hex p (List.mem_cons_of_mem _ hp))

/-- C12. For a snapshot whose entries all exist on the filesystem, `compare` of
the snapshot against an identical copy of itself returns and pushes no event: the
engine, with its event queue, is as before the call. -/
theorem compare_identical_snapshots (w : OsEnv) (dir : String) (m : dir_entry_map)
    (s : dir_monitor_impl) (hex : ∀ p ∈ m, w.stat p.2.path ≠ none) :
    compare w dir m m s = Outcome.returned ([], s) := by
  unfold compare
  rw [compare_new_same w dir m s hex]
  simp [compare_old]

/-- C12, at the snapshot `{b, c}` of `/d`, both files existing. -/
theorem compare_identical_snapshots_witness :
    compare os_b_c "/d" (snapshot_from ["/d/b", "/d/c"]) (snapshot_from ["/d/b", "/d/c"])
      dir_monitor_impl.init = Outcome.returned ([], dir_monitor_impl.init) :=
  compare_identical_snapshots os_b_c "/d" (snapshot_from ["/d/b", "/d/c"])
    dir_monitor_impl.init
    (by
      intro p hp
      have hm : snapshot_from ["/d/b", "/d/c"] =
          [("/d/b", ⟨"/d/b"⟩), ("/d/c", ⟨"/d/c"⟩)] := by decide
      rw [hm] at hp
      have hp2 : p = ("/d/b", ⟨"/d/b"⟩) ∨ p = ("/d/c", ⟨"/d/c"⟩) := by simpa using hp
      rcases hp2 with rfl | rfl <;> decide)

/-- C13. A successful `add_directory` (the directory can be scanned) returns and
pushes no event: the event queue after the call is the one before it, whatever
the scan finds. -/
theorem add_directory_pushes_nothing (w : OsEnv) (s : dir_monitor_impl) (dirname : String)
    (wd : Nat) (ps : List String) (hscan : w.walk dirname = some ps) :
    ∃ s1, add_directory w s dirname wd = Outcome.returned s1 ∧ s1.events_ = s.events_ := by
  simp [add_directory, scan, hscan, set_snapshot]

/-- C13, at the directory `/d` holding the files `a` and `b`, registered with an
engine that already watches two directories. -/
theorem add_directory_pushes_nothing_witness :
    ∃ s1, add_directory os_a_b engine_two_dirs "/d" 5 = Outcome.returned s1 ∧
      s1.events_ = engine_two_dirs.events_ :=
  add_directory_pushes_nothing os_a_b engine_two_dirs "/d" 5 ["/d/a", "/d/b"] rfl

/-- C14. When the loop checks a watched directory `d` in a pass (the `kevent`
call reports no error, the scan succeeds and `compare` returns), the check
returns, the stored snapshot of `d` afterwards is exactly the snapshot scanned in
that pass, and the stored snapshot of every other directory is unchanged. -/
theorem check_directory_stores_scan (w : OsEnv) (s : dir_monitor_impl) (d : String × Nat)
    (ps : List String) (hk : w.kevent_fails d.2 = false) (hscan : w.walk d.1 = some ps)
    (hcmp : (compare w d.1 (snapshot_of s d.1) (snapshot_from ps) s).isReturned = true) :
    ∃ s1, check_directory w s d = Outcome.returned s1 ∧
      snapshot_of s1 d.1 = snapshot_from ps ∧
      ∀ d2, d2 ≠ d.1 → snapshot_of s1 d2 = snapshot_of s d2 := by
  have hfr := (compare_frame w d.1 (snapshot_of s d.1) (snapshot_from ps) s).2
  have e2 : List.foldl (fun m p => map_assign m p ⟨p⟩) [] ps = snapshot_from ps := rfl
  cases hr : compare w d.1 (snapshot_of s d.1) (snapshot_from ps) s with
  | threw r => rw [hr] at hcmp; exact absurd hcmp (by simp [Outcome.isReturned])
  | returned r =>
      obtain ⟨old1, s2⟩ := r
      rw [hr] at hfr
      simp only [Outcome.state] at hfr
      refine ⟨set_snapshot s2 d.1 (snapshot_from ps), ?_, ?_, ?_⟩
      · simp [check_directory, hk, scan, hscan, e2, hr]
      · exact snapshot_of_set_snapshot_self s2 d.1 _
      · intro d2 hd2
        rw [snapshot_of_set_snapshot_ne s2 d.1 d2 _ hd2]
        simp [snapshot_of, hfr]

/-- C14, at the engine watching `/gone` and `/ok`, for the check of `/ok` in a
pass that finds the new file `new` there. -/
theorem check_directory_stores_scan_witness :
    ∃ s1, check_directory os_gone_lost engine_two_dirs ("/ok", 4) = Outcome.returned s1 ∧
      snapshot_of s1 "/ok" = snapshot_from ["/ok/new"] ∧
      ∀ d2, d2 ≠ "/ok" → snapshot_of s1 d2 = snapshot_of engine_two_dirs d2 :=
  check_directory_stores_scan os_gone_lost engine_two_dirs ("/ok", 4) ["/ok/new"] rfl rfl
    (by decide)

/-! ## Counting the events of `compare` -/

theorem new_events_length (w : OsEnv) (dir : String) (old new : dir_entry_map) :
    (new.filterMap (new_entry_event w dir old)).length =
      (only_in new old).length + (changed_in_both w old new).length := by
  induction new with
  | nil => simp [only_in, changed_in_both]
  | cons p rest ih =>
      simp only [only_in, changed_in_both, decide_not] at ih
      cases hf : map_find old p.1 with
      | none =>
          have hk : p.1 ∉ map_keys old := (map_find_eq_none_iff old p.1).mp hf
          simp [List.filterMap_cons, new_entry_event, hf, only_in, changed_in_both, hk]
          omega
      | some eo =>
          have hk : p.1 ∈ map_keys old := by
            by_contra h
            rw [(map_find_eq_none_iff old p.1).mpr h] at hf
            exact absurd hf (by simp)
          by_cases hc : entry_changed w p.2.path eo.path = some true
          · simp [List.filterMap_cons, new_entry_event, hf, only_in, changed_in_both, hk, hc]
            omega
          · simp [List.filterMap_cons, new_entry_event, hf, only_in, changed_in_both, hk, hc]
            omega

/-- C15, as amended. With the event queue open, and provided that for every key
present in both snapshots at least one of the two entries can be stat-ed,
`compare` returns and the number of events it has pushed is the number of keys
only in new, plus the number of keys only in old, plus the number of keys in both
whose entries are judged changed; the pushed events are the diff of the
specification, where each key gives at most one event. -/
theorem compare_event_count (w : OsEnv) (dir : String)
    (old_entries new_entries : dir_entry_map) (s : dir_monitor_impl)
    (hrun : s.run_ = true) (hold : (map_keys old_entries).Nodup)
    (hnew : (map_keys new_entries).Nodup)
    (hstat : ∀ p ∈ new_entries, ∀ eo, map_find old_entries p.1 = some eo →
      w.stat p.2.path ≠ none ∨ w.stat eo.path ≠ none) :
    ∃ (old1 : dir_entry_map) (s1 : dir_monitor_impl) (pushed : List dir_monitor_event),
      compare w dir old_entries new_entries s = Outcome.returned (old1, s1) ∧
      s1.events_ = s.events_ ++ pushed ∧
      pushed = diff_spec w dir old_entries new_entries ∧
      pushed.length =
        (only_in new_entries old_entries).length + (only_in old_entries new_entries).length +
          (changed_in_both w old_entries new_entries).length := by
  have hst : ∀ p ∈ new_entries, ∀ eo, map_find old_entries p.1 = some eo →
      entry_changed w p.2.path eo.path ≠ none := by
    intro p hp eo h hc
    rw [entry_changed_eq_none_iff] at hc
    rcases hstat p hp eo h with h1 | h1
    · exact h1 hc.1
    · exact h1 hc.2
  refine ⟨_, _, diff_spec w dir old_entries new_entries,
    compare_eq_diff_spec w dir old_entries new_entries s hrun hold hnew hst, rfl, rfl, ?_⟩
  simp only [diff_spec, List.length_append, List.length_map, new_events_length]
  omega

/-- C15, as amended, at the snapshots `{a, b}` and `{b, c}` of `/d`: two events. -/
theorem compare_event_count_witness :
    ∃ (old1 : dir_entry_map) (s1 : dir_monitor_impl) (pushed : List dir_monitor_event),
      compare os_b_c "/d" (snapshot_from ["/d/a", "/d/b"]) (snapshot_from ["/d/b", "/d/c"])
        dir_monitor_impl.init = Outcome.returned (old1, s1) ∧
      s1.events_ = dir_monitor_impl.init.events_ ++ pushed ∧
      pushed = diff_spec os_b_c "/d" (snapshot_from ["/d/a", "/d/b"])
        (snapshot_from ["/d/b", "/d/c"]) ∧
      pushed.length =
        (only_in (snapshot_from ["/d/b", "/d/c"]) (snapshot_from ["/d/a", "/d/b"])).length +
          (only_in (snapshot_from ["/d/a", "/d/b"]) (snapshot_from ["/d/b", "/d/c"])).length +
          (changed_in_both os_b_c (snapshot_from ["/d/a", "/d/b"])
            (snapshot_from ["/d/b", "/d/c"])).length :=
  compare_event_count os_b_c "/d" (snapshot_from ["/d/a", "/d/b"])
    (snapshot_from ["/d/b", "/d/c"]) dir_monitor_impl.init rfl (by decide) (by decide)
    (by
      intro p hp eo h
      have hm : snapshot_from ["/d/b", "/d/c"] =
          [("/d/b", ⟨"/d/b"⟩), ("/d/c", ⟨"/d/c"⟩)] := by decide
      rw [hm] at hp
      have hp2 : p = ("/d/b", ⟨"/d/b"⟩) ∨ p = ("/d/c", ⟨"/d/c"⟩) := by simpa using hp
      rcases hp2 with rfl | rfl
      · left; decide
      · left; decide)

/-- C15, as stated, fails: with the queue open, old snapshot `{x, z}` and new
snapshot `{x, y}` of `/d`, where `x` cannot be stat-ed, `compare` throws at `x`
and has pushed no event, although one key is only in new and one only in old. -/
theorem compare_event_count_counterexample :
    dir_monitor_impl.init.run_ = true ∧
    (compare os_dangling_y "/d" (snapshot_from ["/d/x", "/d/z"])
        (snapshot_from ["/d/x", "/d/y"]) dir_monitor_impl.init).state.2.events_.length = 0 ∧
    (only_in (snapshot_from ["/d/x", "/d/y"]) (snapshot_from ["/d/x", "/d/z"])).length = 1 ∧
    (only_in (snapshot_from ["/d/x", "/d/z"]) (snapshot_from ["/d/x", "/d/y"])).length = 1 ∧
    (changed_in_both os_dangling_y (snapshot_from ["/d/x", "/d/z"])
        (snapshot_from ["/d/x", "/d/y"])).length = 0 := by
  decide

/-! ## No `modified` event for snapshots made by `scan` -/

theorem map_find_mem (m : dir_entry_map) (k : String) (e : directory_entry)
    (h : map_find m k = some e) : (k, e) ∈ m := by
  induction m with
  | nil => simp [map_find] at h
  | cons p rest ih =>
      obtain ⟨k1, e1⟩ := p
      by_cases h1 : k1 = k
      · subst h1
        simp only [map_find, if_true, Option.some.injEq] at h
        subst h
        exact List.mem_cons_self _ _
      · simp only [map_find, h1, if_false] at h
        exact List.mem_cons_of_mem _ (ih h)

theorem entry_changed_same_path (w : OsEnv) (p : String) :
    entry_changed w p p ≠ some true := by
  cases hs : w.stat p with
  | none =>
      have : entry_changed w p p = none := (entry_changed_eq_none_iff w p p).mpr ⟨hs, hs⟩
      rw [this]; simp
  | some a =>
      rw [entry_changed_self w p (by rw [hs]; simp)]; simp

theorem compare_new_no_modified (w : OsEnv) (dir : String)
    (new : List (String × directory_entry)) (old : dir_entry_map) (s : dir_monitor_impl)
    (hold : ∀ p ∈ old, p.2.path = p.1) (hnew : ∀ p ∈ new, p.2.path = p.1) :
    ∃ pushed, (compare_new w dir new old s).state.2.events_ = s.events_ ++ pushed ∧
      ∀ e ∈ pushed, e.type = event_type.added := by
  induction new generalizing old s with
  | nil => exact ⟨[], by simp [compare_new, Outcome.state]⟩
  | cons p rest ih =>
      obtain ⟨k, en⟩ := p
      have hrest : ∀ p ∈ rest, p.2.path = p.1 := fun p hp => hnew p (List.mem_cons_of_mem _ hp)
      have hen : en.path = k := hnew (k, en) (List.mem_cons_self _ _)
      simp only [compare_new]
      cases hf : map_find old k with
      | none =>
          simp only
          obtain ⟨pushed, h1, h2⟩ :=
            ih old (pushback_event s (event_for dir en event_type.added)) hold hrest
          refine ⟨(if s.run_ then [event_for dir en event_type.added] else []) ++ pushed, ?_, ?_⟩
          · rw [h1, pushback_event_events]; simp
          · intro e he
            rw [List.mem_append] at he
            rcases he with he | he
            · split at he
              · simp only [List.mem_singleton] at he
                subst he
                rfl
              · simp at he
            · exact h2 e he
      | some eo =>
          simp only
          have heo : eo.path = k := hold (k, eo) (map_find_mem old k eo hf)
          have herase : ∀ p ∈ map_erase old k, p.2.path = p.1 :=
            fun p hp => hold p ((map_erase_sublist old k).subset hp)
          rw [hen, heo]
          cases hc : entry_changed w k k with
          | none => exact ⟨[], by simp [Outcome.state]⟩
          | some c =>
              cases c with
              | true => exact absurd hc (entry_changed_same_path w k)
              | false =>
                  simp only [Bool.false_eq_true, if_false]
                  exact ih (map_erase old k) s herase hrest

/-- C17. For an old and a new snapshot in which each key is the path of its
entry, as `scan` makes them, and one state of the filesystem during the call,
`compare` pushes no `modified` event at all, whether it returns or throws: for a
key in both snapshots the condition compares the path with itself. -/
theorem compare_never_modified (w : OsEnv) (dir : String)
    (old_entries new_entries : dir_entry_map) (s : dir_monitor_impl)
    (hold : ∀ p ∈ old_entries, p.2.path = p.1) (hnew : ∀ p ∈ new_entries, p.2.path = p.1) :
    ∃ pushed,
      (compare w dir old_entries new_entries s).state.2.events_ = s.events_ ++ pushed ∧
      ∀ e ∈ pushed, e.type ≠ event_type.modified := by
  obtain ⟨pushed, h1, h2⟩ := compare_new_no_modified w dir new_entries old_entries s hold hnew
  have hrun := (compare_new_shape w dir new_entries old_entries s).choose_spec.2.2.1
  unfold compare
  cases hr : compare_new w dir new_entries old_entries s with
  | threw r =>
      rw [hr] at h1
      refine ⟨pushed, by simpa [Outcome.state] using h1, ?_⟩
      intro e he
      rw [h2 e he]; simp
  | returned r =>
      obtain ⟨old1, s1⟩ := r
      rw [hr] at h1 hrun
      simp only [Outcome.state] at h1 hrun ⊢
      cases hs : s.run_ with
      | false =>
          rw [hs] at hrun
          rw [compare_old_closed dir old1 s1 hrun]
          refine ⟨pushed, h1, ?_⟩
          intro e he
          rw [h2 e he]; simp
      | true =>
          rw [hs] at hrun
          rw [compare_old_open dir old1 s1 hrun]
          refine ⟨pushed ++ old1.map (fun p => event_for dir p.2 event_type.removed), ?_, ?_⟩
          · simp [h1]
          · intro e he
            rw [List.mem_append] at he
            rcases he with he | he
            · rw [h2 e he]; simp
            · rw [List.mem_map] at he
              obtain ⟨p, _, hp⟩ := he
              subst hp
              simp [event_for]

/-- C17, at the snapshot `{x}` of `/d` compared with itself after `x` has grown
and been written again: nothing is pushed. -/
theorem compare_never_modified_witness :
    ∃ pushed,
      (compare os_x_after "/d" (snapshot_from ["/d/x"]) (snapshot_from ["/d/x"])
        dir_monitor_impl.init).state.2.events_ = dir_monitor_impl.init.events_ ++ pushed ∧
      ∀ e ∈ pushed, e.type ≠ event_type.modified :=
  compare_never_modified os_x_after "/d" (snapshot_from ["/d/x"]) (snapshot_from ["/d/x"])
    dir_monitor_impl.init (by decide) (by decide)

/-! ## The closed queue -/

theorem compare_new_closed (w : OsEnv) (dir : String)
    (new : List (String × directory_entry)) (old : dir_entry_map) (s : dir_monitor_impl)
    (h : s.run_ = false) : (compare_new w dir new old s).state.2 = s := by
  induction new generalizing old with
  | nil => simp [compare_new, Outcome.state]
  | cons p rest ih =>
      obtain ⟨k, en⟩ := p
      simp only [compare_new]
      cases hf : map_find old k with
      | none =>
          simp only
          rw [pushback_event_closed s _ h]
          exact ih old
      | some eo =>
          simp only
          cases hc : entry_changed w en.path eo.path with
          | none => simp [Outcome.state]
          | some c =>
              simp only
              rw [pushback_event_closed s _ h]
              simpa using ih (map_erase old k)

theorem compare_closed (w : OsEnv) (dir : String) (old new : dir_entry_map)
    (s : dir_monitor_impl) (h : s.run_ = false) : (compare w dir old new s).state.2 = s := by
  have h1 := compare_new_closed w dir new old s h
  unfold compare
  cases hr : compare_new w dir new old s with
  | threw r => rw [hr] at h1; simpa [Outcome.state] using h1
  | returned r =>
      obtain ⟨old1, s1⟩ := r
      rw [hr] at h1
      simp only [Outcome.state] at h1 ⊢
      subst h1
      exact compare_old_closed dir old1 s1 h

theorem check_directory_closed (w : OsEnv) (s : dir_monitor_impl) (d : String × Nat)
    (h : s.run_ = false) :
    (check_directory w s d).state.run_ = false ∧
    (check_directory w s d).state.events_ = s.events_ := by
  unfold check_directory
  split
  · exact ⟨h, rfl⟩
  · split
    · exact ⟨h, rfl⟩
    · rename_i new_entries _
      have hc := compare_closed w d.1 (snapshot_of s d.1) new_entries s h
      split
      · rename_i old s1 heq
        rw [heq] at hc
        simp only [Outcome.state] at hc
        subst hc
        exact ⟨h, rfl⟩
      · rename_i old s1 heq
        rw [heq] at hc
        simp only [Outcome.state] at hc
        subst hc
        exact ⟨h, rfl⟩

theorem pass_over_closed (w : OsEnv) (ds : List (String × Nat)) (s : dir_monitor_impl)
    (h : s.run_ = false) :
    (pass_over w ds s).state.run_ = false ∧ (pass_over w ds s).state.events_ = s.events_ := by
  induction ds generalizing s with
  | nil => exact ⟨h, rfl⟩
  | cons d rest ih =>
      have hc := check_directory_closed w s d h
      simp only [pass_over]
      cases hr : check_directory w s d with
      | threw s1 => rw [hr] at hc; exact hc
      | returned s1 =>
          rw [hr] at hc
          simp only [Outcome.state] at hc
          simp only
          have := ih s1 hc.1
          exact ⟨this.1, this.2.trans hc.2⟩

theorem add_directory_frame (w : OsEnv) (s : dir_monitor_impl) (dirname : String) (wd : Nat) :
    (add_directory w s dirname wd).state.run_ = s.run_ ∧
    (add_directory w s dirname wd).state.events_ = s.events_ := by
  unfold add_directory scan
  cases w.walk dirname with
  | some ps => exact ⟨rfl, rfl⟩
  | none => cases w.walk_interrupted dirname <;> exact ⟨rfl, rfl⟩

theorem apply_call_closed (s : dir_monitor_impl) (c : engine_call) (h : s.run_ = false) :
    (apply_call s c).run_ = false ∧ (apply_call s c).events_ <:+ s.events_ := by
  cases c with
  | add_directory w dirname wd =>
      have := add_directory_frame w s dirname wd
      exact ⟨this.1.trans h, by simp only [apply_call]; rw [this.2]⟩
  | remove_directory dirname => exact ⟨h, List.suffix_refl _⟩
  | destroy => exact ⟨rfl, List.suffix_refl _⟩
  | stop_work_thread => exact ⟨rfl, List.suffix_refl _⟩
  | popfront_event =>
      obtain ⟨en, r, ds, evs⟩ := s
      simp only at h
      subst h
      cases evs with
      | nil => simp [apply_call, popfront_event]
      | cons e rest =>
          simp only [apply_call, popfront_event]
          exact ⟨rfl, List.suffix_cons e rest⟩
  | pushback_event ev =>
      simp only [apply_call]
      rw [pushback_event_closed s ev h]
      exact ⟨h, List.suffix_refl _⟩
  | loop_pass w =>
      have := pass_over_closed w s.dirs_ s h
      simp only [apply_call, loop_pass]
      exact ⟨this.1, by rw [this.2]⟩

theorem apply_calls_closed (cs : List engine_call) (s : dir_monitor_impl)
    (h : s.run_ = false) :
    (apply_calls s cs).run_ = false ∧ (apply_calls s cs).events_ <:+ s.events_ := by
  induction cs generalizing s with
  | nil => exact ⟨h, List.suffix_refl _⟩
  | cons c cs ih =>
      have h1 := apply_call_closed s c h
      have h2 := ih (apply_call s c) h1.1
      simp only [apply_calls, List.foldl_cons] at h2 ⊢
      exact ⟨h2.1, h2.2.trans h1.2⟩

/-- C18. After `destroy()` or `stop_work_thread()`, whatever calls follow (of
`add_directory`, `remove_directory`, `destroy`, `stop_work_thread`,
`popfront_event`, `pushback_event`, or passes of the work thread), `run_` stays
false, `pushback_event` leaves the engine exactly as it is for every event, and
the event queue only ever holds a final part of what it held at closure: an event
pushed after closure is dropped and never delivered. -/
theorem closed_queue_stays_closed (s : dir_monitor_impl) (cs : List engine_call)
    (ev : dir_monitor_event) :
    (apply_calls (destroy s) cs).run_ = false ∧
    pushback_event (apply_calls (destroy s) cs) ev = apply_calls (destroy s) cs ∧
    (apply_calls (destroy s) cs).events_ <:+ s.events_ ∧
    (apply_calls (stop_work_thread s) cs).run_ = false ∧
    pushback_event (apply_calls (stop_work_thread s) cs) ev =
      apply_calls (stop_work_thread s) cs ∧
    (apply_calls (stop_work_thread s) cs).events_ <:+ s.events_ := by
  have h1 := apply_calls_closed cs (destroy s) rfl
  have h2 := apply_calls_closed cs (stop_work_thread s) rfl
  exact ⟨h1.1, pushback_event_closed _ ev h1.1, h1.2, h2.1,
    pushback_event_closed _ ev h2.1, h2.2⟩

/-! ## The work thread and the registry -/

/-- C16, at the failing interleaving: the engine watches `/gone` and `/ok`; the
work thread enters its `for` loop and runs the body for `/gone`; before it
reaches `/ok`, another thread calls `remove_directory("/ok")`. The call is not
held back: `dirs_` is mutated while the loop still has `/ok` to visit. -/
theorem registry_mutated_during_pass :
    run_steps { engine := engine_two_dirs, iterating := none, mutated_while_iterating := false }
        [thread_step.loop_enter, thread_step.loop_body os_two_dirs,
         thread_step.call_remove_directory "/ok"] =
      some { engine := { engine_two_dirs with dirs_ := [("/gone", 3)] },
             iterating := some [("/ok", 4)],
             mutated_while_iterating := true } := by
  decide

end DirMonitor
